import Mathlib

/-!
Verification of the crypto-quant core against its specification.

Shallow embedding conventions:
* Go `float64` arithmetic is modelled over `ℚ` (and over `ℝ` where the source
  uses `math.Sqrt`); quantities, prices and balances are exact rationals.
* Go `time.Time` / `time.Duration` values are modelled as integer milliseconds.
* Go maps keyed by strings are modelled as association lists; the fallible
  methods that return `error` are modelled with `Except String`.
* Wall-clock-only fields (`UpdatedAt`, set from `time.Now()`) are omitted:
  they are write-only metadata that no operation reads.
-/

set_option maxHeartbeats 1000000

namespace CryptoQuant

/-- Generic association-list lookup, modelling a Go `map[string]T` read. -/
def alistLookup {β : Type} (w : List (String × β)) (a : String) : Option β :=
  (w.find? (fun p => p.1 == a)).map (fun p => p.2)

/-- Generic association-list update/insert, modelling a Go `map[string]T` write. -/
def alistSet {β : Type} : List (String × β) → String → β → List (String × β)
  | [], a, b => [(a, b)]
  | p :: ps, a, b => if p.1 = a then (a, b) :: ps else p :: alistSet ps a b

/-! ### Wallet (`internal/trading/wallet`) -/

/-- Per-asset balance record (`domain.Balance`). -/
structure Balance where
  asset : String
  free : ℚ
  locked : ℚ
  total : ℚ
deriving DecidableEq

/-- The wallet `Manager`'s balance book (`map[string]*domain.Balance`). -/
abbrev Wallet := List (String × Balance)

/-- `Manager.Lock`: move `amount` from free to locked; fails if the asset is
absent or `free < amount`. `Total` is not touched by the source. -/
def Wallet.lock (w : Wallet) (asset : String) (amount : ℚ) : Except String Wallet :=
  match alistLookup w asset with
  | none => .error "balance not found"
  | some b =>
    if b.free < amount then .error "insufficient free balance"
    else .ok (alistSet w asset { b with free := b.free - amount, locked := b.locked + amount })

/-- `Manager.Unlock`: move `amount` from locked back to free; fails if the asset
is absent or `locked < amount`. `Total` is not touched by the source. -/
def Wallet.unlock (w : Wallet) (asset : String) (amount : ℚ) : Except String Wallet :=
  match alistLookup w asset with
  | none => .error "balance not found"
  | some b =>
    if b.locked < amount then .error "insufficient locked balance"
    else .ok (alistSet w asset { b with locked := b.locked - amount, free := b.free + amount })

/-- `Manager.Deduct`: consume `amount` from locked and recompute `Total`. -/
def Wallet.deduct (w : Wallet) (asset : String) (amount : ℚ) : Except String Wallet :=
  match alistLookup w asset with
  | none => .error "balance not found"
  | some b =>
    if b.locked < amount then .error "insufficient locked balance"
    else .ok (alistSet w asset
      { b with locked := b.locked - amount, total := b.free + (b.locked - amount) })

/-- `Manager.Credit`: add `amount` (possibly negative) to free, creating the
record when absent; recompute `Total`. Never fails. -/
def Wallet.credit (w : Wallet) (asset : String) (amount : ℚ) : Wallet :=
  match alistLookup w asset with
  | none => alistSet w asset { asset := asset, free := amount, locked := 0, total := amount }
  | some b => alistSet w asset { b with free := b.free + amount, total := (b.free + amount) + b.locked }

/-- `Manager.Transfer`: consume `fromAmount` from the source's locked balance,
then credit `toAmount` to the destination's free balance (creating it when
absent); both totals recomputed. The destination is looked up after the source
update, matching the Go pointer semantics when both assets coincide. -/
def Wallet.transfer (w : Wallet) (fromAsset : String) (fromAmount : ℚ)
    (toAsset : String) (toAmount : ℚ) : Except String Wallet :=
  match alistLookup w fromAsset with
  | none => .error "source balance not found"
  | some fb =>
    if fb.locked < fromAmount then .error "insufficient locked balance"
    else
      let w1 := alistSet w fromAsset
        { fb with locked := fb.locked - fromAmount, total := fb.free + (fb.locked - fromAmount) }
      match alistLookup w1 toAsset with
      | none => .ok (alistSet w1 toAsset
          { asset := toAsset, free := toAmount, locked := 0, total := toAmount })
      | some tb => .ok (alistSet w1 toAsset
          { tb with free := tb.free + toAmount, total := (tb.free + toAmount) + tb.locked })

/-- `Manager.HasSufficientBalance`: `free ≥ amount` for a present asset. -/
def Wallet.hasSufficientBalance (w : Wallet) (asset : String) (amount : ℚ) : Bool :=
  match alistLookup w asset with
  | none => false
  | some b => amount ≤ b.free

/-- One wallet mutation, for quantifying over the five operations. -/
inductive WalletOp where
  | lock (asset : String) (amount : ℚ)
  | unlock (asset : String) (amount : ℚ)
  | deduct (asset : String) (amount : ℚ)
  | credit (asset : String) (amount : ℚ)
  | transfer (fromAsset : String) (fromAmount : ℚ) (toAsset : String) (toAmount : ℚ)
deriving DecidableEq

/-- Apply one wallet operation; a failed operation leaves the wallet unchanged,
exactly as the Go methods return an error without mutating state. -/
def WalletOp.apply (op : WalletOp) (w : Wallet) : Wallet :=
  match op with
  | .lock a q => (w.lock a q).toOption.getD w
  | .unlock a q => (w.unlock a q).toOption.getD w
  | .deduct a q => (w.deduct a q).toOption.getD w
  | .credit a q => w.credit a q
  | .transfer fa fq ta tq => (w.transfer fa fq ta tq).toOption.getD w

/-- All amounts of the operation are nonnegative. -/
def WalletOp.nonneg : WalletOp → Prop
  | .lock _ q => 0 ≤ q
  | .unlock _ q => 0 ≤ q
  | .deduct _ q => 0 ≤ q
  | .credit _ q => 0 ≤ q
  | .transfer _ fq _ tq => 0 ≤ fq ∧ 0 ≤ tq

/-- The spec's balance invariant: `total = free + locked`, `free ≥ 0`, `locked ≥ 0`. -/
abbrev BalInv (b : Balance) : Prop :=
  b.total = b.free + b.locked ∧ 0 ≤ b.free ∧ 0 ≤ b.locked

/-- Every balance in the wallet satisfies the spec invariant. -/
abbrev WalletInv (w : Wallet) : Prop := ∀ p ∈ w, BalInv p.2

/-- The accounting identity for one balance: `total = free + locked`. -/
abbrev BalTotal (b : Balance) : Prop := b.total = b.free + b.locked

/-- The accounting identity alone: `total = free + locked` for every balance. -/
abbrev WalletTotals (w : Wallet) : Prop := ∀ p ∈ w, BalTotal p.2

/-- Concrete wallet used to exhibit the negative-credit violation. -/
def wNeg0 : Wallet := [("USDT", { asset := "USDT", free := 5, locked := 0, total := 5 })]

/-- Concrete wallet for the invariant-preservation witness. -/
def wInv0 : Wallet := [("USDT", { asset := "USDT", free := 1000, locked := 20, total := 1020 })]

/-! ### Portfolio (`internal/trading/portfolio`) -/

/-- Per-symbol position record (`domain.Position`); the wall-clock `UpdatedAt`
field is omitted. -/
structure Position where
  symbol : String
  quantity : ℚ
  avgEntryPrice : ℚ
  currentPrice : ℚ
  unrealizedPnL : ℚ
  realizedPnL : ℚ
deriving DecidableEq

/-- The delta-classification core of `Manager.UpdatePosition` (open / add /
partial close / full close / reversal), followed by the unconditional
`CurrentPrice` refresh. -/
def Position.applyUpdate (pos : Position) (quantity price : ℚ) : Position :=
  let oldQty := pos.quantity
  let newQty := oldQty + quantity
  let pos1 :=
    if oldQty = 0 then
      { pos with avgEntryPrice := price, quantity := newQty }
    else if (0 < oldQty ∧ 0 < quantity) ∨ (oldQty < 0 ∧ quantity < 0) then
      { pos with
        avgEntryPrice := (pos.avgEntryPrice * oldQty + price * quantity) / newQty,
        quantity := newQty }
    else if newQty = 0 then
      { pos with
        realizedPnL := pos.realizedPnL + (price - pos.avgEntryPrice) * (-quantity),
        quantity := 0, unrealizedPnL := 0 }
    else if (0 < oldQty ∧ 0 < newQty) ∨ (oldQty < 0 ∧ newQty < 0) then
      { pos with
        realizedPnL := pos.realizedPnL + (price - pos.avgEntryPrice) * (-quantity),
        quantity := newQty }
    else
      { pos with
        realizedPnL := pos.realizedPnL + (price - pos.avgEntryPrice) * oldQty,
        avgEntryPrice := price, quantity := newQty }
  { pos1 with currentPrice := price }

/-- The portfolio `Manager`'s position book (`map[string]*domain.Position`). -/
abbrev PositionBook := List (String × Position)

/-- `Manager.UpdatePosition`: create a fresh zero position when the symbol is
absent, then apply the delta-classification update. -/
def updatePosition (book : PositionBook) (symbol : String) (quantity price : ℚ) : PositionBook :=
  let pos := (alistLookup book symbol).getD
    { symbol := symbol, quantity := 0, avgEntryPrice := 0, currentPrice := price,
      unrealizedPnL := 0, realizedPnL := 0 }
  alistSet book symbol (pos.applyUpdate quantity price)

/-- Concrete position for the full-close witness. -/
def pos0 : Position :=
  { symbol := "BTCUSDT", quantity := 2, avgEntryPrice := 100, currentPrice := 100,
    unrealizedPnL := 6, realizedPnL := 7 }

/-- Concrete one-symbol book for the full-close witness. -/
def book0 : PositionBook := [("BTCUSDT", pos0)]

/-! ### Backtest engine (`internal/quant/backtest`) -/

/-- `domain.OrderSide` (the string constants `"BUY"` / `"SELL"`). -/
inductive OrderSide where
  | buy
  | sell
deriving DecidableEq

/-- `domain.Candle` over a numeric carrier (`ℚ` for the engine, `ℝ` where the
source needs `math.Sqrt`); times are epoch milliseconds. -/
structure Candle (α : Type) where
  symbol : String
  openTime : ℤ
  closeTime : ℤ
  open_ : α
  high : α
  low : α
  close : α
  volume : α
deriving DecidableEq

/-- `backtest.Signal`. `price = 0` requests a market order at candle close.
`reason` strings are abbreviated constants (the Go code formats diagnostics
into them; no consumer inspects their content). -/
structure Signal (α : Type) where
  action : OrderSide
  quantity : α
  price : α
  reason : String
deriving DecidableEq

/-- `backtest.Trade`: one settled fill, recording post-trade balance/position. -/
structure Trade where
  timestamp : ℤ
  side : OrderSide
  price : ℚ
  quantity : ℚ
  fee : ℚ
  balance : ℚ
  position : ℚ
  reason : String
deriving DecidableEq

/-- `backtest.EquityPoint`. -/
structure EquityPoint where
  timestamp : ℤ
  equity : ℚ
  price : ℚ
deriving DecidableEq

/-- The engine's mutable state (`balance`, `position`, `trades`, `equity`). -/
structure EngineState where
  balance : ℚ
  position : ℚ
  trades : List Trade
  equity : List EquityPoint
deriving DecidableEq

/-- `Engine.executeBuy`: deduct cost plus fee, grow the position, append the
trade; `none` when `totalCost > balance` (the engine logs and skips). -/
def executeBuy (commission : ℚ) (timestamp : ℤ) (price quantity : ℚ) (reason : String)
    (es : EngineState) : Option EngineState :=
  let cost := price * quantity
  let fee := cost * commission
  let totalCost := cost + fee
  if es.balance < totalCost then none
  else some
    { balance := es.balance - totalCost
      position := es.position + quantity
      trades := es.trades ++
        [{ timestamp := timestamp, side := .buy, price := price, quantity := quantity,
           fee := fee, balance := es.balance - totalCost, position := es.position + quantity,
           reason := reason }]
      equity := es.equity }

/-- `Engine.executeSell`: credit net revenue, shrink the position, append the
trade; `none` when `quantity > position` (the engine logs and skips). -/
def executeSell (commission : ℚ) (timestamp : ℤ) (price quantity : ℚ) (reason : String)
    (es : EngineState) : Option EngineState :=
  if es.position < quantity then none
  else
    let revenue := price * quantity
    let fee := revenue * commission
    let netRevenue := revenue - fee
    some
      { balance := es.balance + netRevenue
        position := es.position - quantity
        trades := es.trades ++
          [{ timestamp := timestamp, side := .sell, price := price, quantity := quantity,
             fee := fee, balance := es.balance + netRevenue, position := es.position - quantity,
             reason := reason }]
        equity := es.equity }

/-- `Engine.executeSignal`: resolve the market price and dispatch on the side. -/
def executeSignal (commission : ℚ) (c : Candle ℚ) (sig : Signal ℚ)
    (es : EngineState) : Option EngineState :=
  let price := if sig.price = 0 then c.close else sig.price
  match sig.action with
  | .buy => executeBuy commission c.openTime price sig.quantity sig.reason es
  | .sell => executeSell commission c.openTime price sig.quantity sig.reason es

/-- A strategy's `OnCandle`, as a pure step on its own state; errors abort the
run, matching the Go interface. -/
abbrev StepFn (σ : Type) := σ → Candle ℚ → Except String (σ × Option (Signal ℚ))

/-- One iteration of `Engine.Run`'s loop: consult the strategy, settle the
signal if any (a failed settlement leaves the state untouched), and append
exactly one equity point at `balance + position·close`. -/
def processCandle {σ : Type} (step : StepFn σ) (commission : ℚ) (s : σ) (es : EngineState)
    (c : Candle ℚ) : Except String (σ × EngineState) :=
  match step s c with
  | .error e => .error e
  | .ok (s', sigO) =>
    let es1 := match sigO with
      | some sig => (executeSignal commission c sig es).getD es
      | none => es
    .ok (s', { es1 with equity := es1.equity ++
      [{ timestamp := c.openTime, equity := es1.balance + es1.position * c.close,
         price := c.close }] })

/-- `Engine.Run`'s candle loop. -/
def runLoop {σ : Type} (step : StepFn σ) (commission : ℚ) :
    σ → EngineState → List (Candle ℚ) → Except String (σ × EngineState)
  | s, es, [] => .ok (s, es)
  | s, es, c :: cs =>
    match processCandle step commission s es c with
    | .error e => .error e
    | .ok (s', es') => runLoop step commission s' es' cs

/-- `NewEngine`: fresh state with the configured initial balance. -/
def initEngine (initialBalance : ℚ) : EngineState :=
  { balance := initialBalance, position := 0, trades := [], equity := [] }

/-! ### Ledger accounting used for the mass-balance claim -/

/-- Total fees over a trade ledger. -/
def sumFees (trades : List Trade) : ℚ := (trades.map (fun t => t.fee)).sum

/-- Signed gross cash flow of one trade (positive for buys). -/
def signedCost (t : Trade) : ℚ :=
  match t.side with
  | .buy => t.price * t.quantity
  | .sell => -(t.price * t.quantity)

/-- Net gross cost over a ledger. -/
def netCost (trades : List Trade) : ℚ := (trades.map signedCost).sum

/-- Signed quantity of one trade (positive for buys). -/
def signedQty (t : Trade) : ℚ :=
  match t.side with
  | .buy => t.quantity
  | .sell => -t.quantity

/-- Net position bought over a ledger. -/
def netQty (trades : List Trade) : ℚ := (trades.map signedQty).sum

/-- Mark-to-market profit of the ledger's flows at a reference price. -/
def mtmPnL (trades : List Trade) (price : ℚ) : ℚ :=
  (trades.map (fun t =>
    match t.side with
    | .buy => (price - t.price) * t.quantity
    | .sell => -((price - t.price) * t.quantity))).sum

/-- Realized PnL of a trade ledger under the repository's own position
semantics: replay the ledger through `Manager.UpdatePosition` and read off
`realizedPnL`. This renders the claim's "Σ(realized PnL)". -/
def realizedFromTrades (trades : List Trade) : ℚ :=
  (trades.foldl (fun (pos : Position) (t : Trade) => pos.applyUpdate (signedQty t) t.price)
    { symbol := "", quantity := 0, avgEntryPrice := 0, currentPrice := 0,
      unrealizedPnL := 0, realizedPnL := 0 }).realizedPnL

/-- The mass-balance sentence of the claim, verbatim:
`balance + position·price − Σfees = initial + Σ(realized PnL)`. -/
def engineMassBalanceClaim (initialBalance : ℚ) (es : EngineState) (price : ℚ) : Prop :=
  es.balance + es.position * price - sumFees es.trades
    = initialBalance + realizedFromTrades es.trades

/-- The coherence invariant the engine actually maintains. -/
def LedgerCoherent (initialBalance : ℚ) (es : EngineState) : Prop :=
  es.balance + netCost es.trades + sumFees es.trades = initialBalance ∧
  es.position = netQty es.trades

/-! ### Concrete inputs for witnesses and counterexamples -/

/-- A flat candle at the given open time and price. -/
def flatCandle (t : ℤ) (price : ℚ) : Candle ℚ :=
  { symbol := "BTCUSDT", openTime := t, closeTime := t + 60000,
    open_ := price, high := price, low := price, close := price, volume := 10 }

/-- Test-harness strategy: buy quantity 1 at market on the first candle, then
stay silent. Used as a concrete input to the engine theorems. -/
def buyOnceStep : StepFn Bool := fun emitted _ =>
  if emitted then .ok (true, none)
  else .ok (true, some { action := .buy, quantity := 1, price := 0, reason := "buy once" })

/-- Test-harness strategy that oversells: sell quantity 5 on every candle. -/
def overSellStep : StepFn Unit := fun _ _ =>
  .ok ((), some { action := .sell, quantity := 5, price := 0, reason := "oversell" })

/-- The trade recorded by `buyOnceStep` on a flat candle at 100 with
commission 1/10 and initial balance 1000. -/
def tradeBuy100 : Trade :=
  { timestamp := 0, side := .buy, price := 100, quantity := 1, fee := 10,
    balance := 890, position := 1, reason := "buy once" }

/-- The engine state after that one candle. -/
def esBuy100 : EngineState :=
  { balance := 890, position := 1, trades := [tradeBuy100],
    equity := [{ timestamp := 0, equity := 990, price := 100 }] }

/-- The engine state after `overSellStep` fails to settle on one flat candle:
state untouched except for the single equity point. -/
def esOverSell : EngineState :=
  { balance := 1000, position := 0, trades := [],
    equity := [{ timestamp := 0, equity := 1000, price := 100 }] }

/-! ### Result analyzer (`backtest/result.go`) -/

/-- The walk of `Result.calculateTradeStats`: a single pending `(buyPrice,
buyQty)` slot, overwritten by each Buy; a Sell pairs with it only when
`buyPrice > 0`, then clears it. -/
def tradeStatsLoop : ℚ → ℚ → ℕ → ℕ → List Trade → ℕ × ℕ
  | _, _, w, l, [] => (w, l)
  | buyPrice, buyQty, w, l, t :: ts =>
    match t.side with
    | .buy => tradeStatsLoop t.price t.quantity w l ts
    | .sell =>
      if 0 < buyPrice then
        let pnl := (t.price - buyPrice) * buyQty
        if 0 < pnl then tradeStatsLoop 0 0 (w + 1) l ts
        else if pnl < 0 then tradeStatsLoop 0 0 w (l + 1) ts
        else tradeStatsLoop 0 0 w l ts
      else tradeStatsLoop buyPrice buyQty w l ts

/-- `Result.calculateTradeStats`: `(winningTrades, losingTrades, winRate)`;
ledgers of fewer than two trades are left at the zero values. -/
def calculateTradeStats (trades : List Trade) : ℕ × ℕ × ℚ :=
  if trades.length < 2 then (0, 0, 0)
  else
    let p := tradeStatsLoop 0 0 0 0 trades
    (p.1, p.2, if 0 < p.1 + p.2 then (p.1 : ℚ) / ((p.1 : ℚ) + (p.2 : ℚ)) else 0)

/-- Modelled from the spec: the reference pairing walk, which keeps a stack of
unpaired Buys and pairs each Sell with the most recent unpaired Buy, scoring
`pnl = (sellPrice − buyPrice)·buyQty` (win if positive, loss if negative, exact
zero ignored). -/
def refTradeStatsLoop : List (ℚ × ℚ) → ℕ → ℕ → List Trade → ℕ × ℕ
  | _, w, l, [] => (w, l)
  | stack, w, l, t :: ts =>
    match t.side with
    | .buy => refTradeStatsLoop ((t.price, t.quantity) :: stack) w l ts
    | .sell =>
      match stack with
      | [] => refTradeStatsLoop [] w l ts
      | (bp, bq) :: rest =>
        let pnl := (t.price - bp) * bq
        if 0 < pnl then refTradeStatsLoop rest (w + 1) l ts
        else if pnl < 0 then refTradeStatsLoop rest w (l + 1) ts
        else refTradeStatsLoop rest w l ts

/-- Modelled from the spec: reference trade statistics with
`winRate = wins/(wins + losses)` (equal to 0 in `ℚ` when there are no pairs). -/
def refTradeStats (trades : List Trade) : ℕ × ℕ × ℚ :=
  let p := refTradeStatsLoop [] 0 0 trades
  (p.1, p.2, (p.1 : ℚ) / ((p.1 : ℚ) + (p.2 : ℚ)))

/-- Ledgers in which Buys and Sells strictly alternate starting from flat, with
positive buy prices (`b = true` when a Buy is expected next). -/
def AltFromFlat : Bool → List Trade → Prop
  | _, [] => True
  | true, t :: ts => t.side = .buy ∧ 0 < t.price ∧ AltFromFlat false ts
  | false, t :: ts => t.side = .sell ∧ AltFromFlat true ts

/-- `Result.calculateMaxDrawdown`'s pass: running peak, maximum drawdown in
absolute and fractional terms. -/
def drawdownLoop : ℚ → ℚ → ℚ → List EquityPoint → ℚ × ℚ
  | _, maxDD, maxDDPct, [] => (maxDD, maxDDPct)
  | peak, maxDD, maxDDPct, pt :: rest =>
    let peak2 := if peak < pt.equity then pt.equity else peak
    let dd := peak2 - pt.equity
    let ddPct := dd / peak2
    if maxDD < dd then drawdownLoop peak2 dd ddPct rest
    else drawdownLoop peak2 maxDD maxDDPct rest

/-- `Result.calculateMaxDrawdown`. -/
def calculateMaxDrawdown (curve : List EquityPoint) : ℚ × ℚ :=
  match curve with
  | [] => (0, 0)
  | first :: _ => drawdownLoop first.equity 0 0 curve

/-- The per-step returns of `calculateSharpeRatio`: `(eqᵢ − eqᵢ₋₁)/eqᵢ₋₁`,
skipping steps whose previous equity is not positive. -/
def stepReturns : List EquityPoint → List ℚ
  | a :: b :: rest =>
    (if 0 < a.equity then [(b.equity - a.equity) / a.equity] else []) ++ stepReturns (b :: rest)
  | _ => []

/-- `Result.calculateSharpeRatio` over `ℝ` (the source uses `math.Sqrt`);
`duration` is `endTime − startTime` in milliseconds, so
`totalDays = duration/86400000`. -/
noncomputable def calculateSharpeRatio (curve : List EquityPoint) (duration : ℤ) : ℝ :=
  if curve.length < 2 then 0
  else
    let returns := stepReturns curve
    if returns.length = 0 then 0
    else
      let n : ℝ := returns.length
      let meanReturn := ((returns.map (fun q => (q : ℝ))).sum) / n
      let sumSquaredDiff :=
        ((returns.map (fun q => ((q : ℝ) - meanReturn) * ((q : ℝ) - meanReturn))).sum)
      let stdDev := Real.sqrt (sumSquaredDiff / n)
      if stdDev = 0 then 0
      else
        let totalDays := (duration : ℝ) / 86400000
        let periodsPerYear := 365 / (totalDays / n)
        (meanReturn / stdDev) * Real.sqrt periodsPerYear

/-- `backtest.Result`; Go zero values stand in for fields the early return
leaves unset. -/
structure BacktestResult where
  initialBalance : ℚ
  finalEquity : ℚ
  totalReturn : ℚ
  totalTrades : ℕ
  winningTrades : ℕ
  losingTrades : ℕ
  winRate : ℚ
  sharpeRatio : ℝ
  maxDrawdown : ℚ
  maxDrawdownPct : ℚ
  startTime : ℤ
  endTime : ℤ
  duration : ℤ
  trades : List Trade
  equityCurve : List EquityPoint

/-- `Engine.calculateResult`: early zero-result when the equity curve is empty,
otherwise the full metric computation. -/
noncomputable def calculateResult (es : EngineState) (initialBalance : ℚ) : BacktestResult :=
  match es.equity with
  | [] =>
    { initialBalance := initialBalance, finalEquity := es.balance, totalReturn := 0,
      totalTrades := 0, winningTrades := 0, losingTrades := 0, winRate := 0,
      sharpeRatio := 0, maxDrawdown := 0, maxDrawdownPct := 0,
      startTime := 0, endTime := 0, duration := 0, trades := [], equityCurve := [] }
  | first :: rest =>
    let lastPt := (first :: rest).getLast (List.cons_ne_nil first rest)
    let finalEquity := lastPt.equity
    let totalReturn := (finalEquity - initialBalance) / initialBalance
    let stats := calculateTradeStats es.trades
    let dd := calculateMaxDrawdown es.equity
    let startTime := first.timestamp
    let endTime := lastPt.timestamp
    let duration := endTime - startTime
    { initialBalance := initialBalance, finalEquity := finalEquity,
      totalReturn := totalReturn, totalTrades := es.trades.length,
      winningTrades := stats.1, losingTrades := stats.2.1, winRate := stats.2.2,
      sharpeRatio := calculateSharpeRatio es.equity duration,
      maxDrawdown := dd.1, maxDrawdownPct := dd.2,
      startTime := startTime, endTime := endTime, duration := duration,
      trades := es.trades, equityCurve := es.equity }

/-- `Engine.Run`: initialize (modelled by the caller passing the strategy's
fresh state), loop over the candles, then compute the result. -/
noncomputable def run {σ : Type} (step : StepFn σ) (s0 : σ) (candles : List (Candle ℚ))
    (initialBalance commission : ℚ) : Except String BacktestResult :=
  (runLoop step commission s0 (initEngine initialBalance) candles).map
    (fun p => calculateResult p.2 initialBalance)

/-- A ledger entry for analyzer tests (only side and price matter). -/
def mkTrade (side : OrderSide) (price : ℚ) : Trade :=
  { timestamp := 0, side := side, price := price, quantity := 1, fee := 0,
    balance := 0, position := 0, reason := "t" }

/-- Two Buys followed by two Sells: the second Sell has an unpaired Buy for the
reference pairing but not for the analyzer. -/
def doubleBuyLedger : List Trade :=
  [mkTrade .buy 100, mkTrade .buy 110, mkTrade .sell 90, mkTrade .sell 90]

/-- A strictly alternating ledger for the trade-statistics witness. -/
def altLedger : List Trade := [mkTrade .buy 100, mkTrade .sell 110]

/-! ### Indicator library (`internal/quant/indicator`)

Generic over a linear ordered field so the same definitions serve the exact
rational model and the real model needed where the source calls `math.Sqrt`. -/

/-- `indicator.SMA`: mean of the trailing `period` prices; 0 when there is not
enough data. -/
def SMA {α : Type} [LinearOrderedField α] (prices : List α) (period : ℕ) : α :=
  if prices.length < period then 0
  else ((prices.drop (prices.length - period)).sum) / (period : α)

/-- One-step differences `prices[i] − prices[i−1]`. -/
def diffs {α : Type} [LinearOrderedField α] : List α → List α
  | a :: b :: rest => (b - a) :: diffs (b :: rest)
  | _ => []

/-- `indicator.RSI`: split the one-step differences into gains and losses, seed
the averages with the arithmetic mean of the first `period`, then apply Wilder
smoothing; 50 with insufficient data, 100 when the average loss is zero. -/
def RSI {α : Type} [LinearOrderedField α] (prices : List α) (period : ℕ) : α :=
  if prices.length < period + 1 then 50
  else
    let changes := diffs prices
    let gains := changes.map (fun ch => if 0 < ch then ch else 0)
    let losses := changes.map (fun ch => if 0 < ch then 0 else |ch|)
    if gains.length < period then 50
    else
      let seed : α × α := (((gains.take period).sum) / (period : α),
        ((losses.take period).sum) / (period : α))
      let smoothed := ((gains.drop period).zip (losses.drop period)).foldl
        (fun (pr : α × α) (gl : α × α) =>
          ((pr.1 * ((period : α) - 1) + gl.1) / (period : α),
           (pr.2 * ((period : α) - 1) + gl.2) / (period : α))) seed
      if smoothed.2 = 0 then 100
      else 100 - 100 / (1 + smoothed.1 / smoothed.2)

/-- `indicator.BollingerBands` (the struct). -/
structure BBands where
  upper : ℝ
  middle : ℝ
  lower : ℝ
  width : ℝ
  pctB : ℝ

/-- `indicator.CalculateBollingerBands` over `ℝ` (the σ needs `math.Sqrt`):
zero struct when data is insufficient; `%B` falls back to 0 when the bands
coincide (`upper != lower` guard in the source). -/
noncomputable def CalculateBollingerBands (prices : List ℝ) (period : ℕ)
    (multiplier : ℝ) : BBands :=
  if prices.length < period then
    { upper := 0, middle := 0, lower := 0, width := 0, pctB := 0 }
  else
    let middle := SMA prices period
    let window := prices.drop (prices.length - period)
    let variance := ((window.map (fun x => (x - middle) * (x - middle))).sum) / (period : ℝ)
    let stdDev := Real.sqrt variance
    let upper := middle + stdDev * multiplier
    let lower := middle - stdDev * multiplier
    let width := (upper - lower) / middle * 100
    let pctB := if upper ≠ lower then ((prices.getLast?.getD 0) - lower) / (upper - lower)
      else 0
    { upper := upper, middle := middle, lower := lower, width := width, pctB := pctB }

/-- The `Middle` field of `CalculateBollingerBands` (the only band field the
Golden strategy reads; it needs no square root, so it is available at any
carrier). -/
def bollingerMiddle {α : Type} [LinearOrderedField α] (prices : List α) (period : ℕ) : α :=
  if prices.length < period then 0 else SMA prices period

/-! ### Ingestion coordinator (`datasource/market/history/collector.go`) -/

/-- An upstream kline: millisecond epoch times, parsed numeric fields. -/
structure Kline where
  openTime : ℤ
  closeTime : ℤ
  open_ : ℚ
  high : ℚ
  low : ℚ
  close : ℚ
  volume : ℚ
deriving DecidableEq

/-- One provider request as issued by the paging loop (epoch milliseconds). -/
structure FetchCall where
  startMs : ℤ
  endMs : ℤ
  limit : ℤ
deriving DecidableEq

/-- `parseInterval`, in milliseconds; every label outside the fourteen
supported ones falls through to the 1-minute default. -/
def parseInterval (interval : String) : ℤ :=
  if interval = "1m" then 60000
  else if interval = "3m" then 180000
  else if interval = "5m" then 300000
  else if interval = "15m" then 900000
  else if interval = "30m" then 1800000
  else if interval = "1h" then 3600000
  else if interval = "2h" then 7200000
  else if interval = "4h" then 14400000
  else if interval = "6h" then 21600000
  else if interval = "8h" then 28800000
  else if interval = "12h" then 43200000
  else if interval = "1d" then 86400000
  else if interval = "3d" then 259200000
  else if interval = "1w" then 604800000
  else 60000

/-- The fourteen interval labels `parseInterval` recognizes. -/
def supportedIntervals : List String :=
  ["1m", "3m", "5m", "15m", "30m", "1h", "2h", "4h", "6h", "8h", "12h", "1d", "3d", "1w"]

/-- The kline-to-candle normalization inside `CollectHistorical`
(`time.Unix(ms/1000, 0)` truncates to seconds). -/
def klineToCandle (symbol : String) (k : Kline) : Candle ℚ :=
  { symbol := symbol, openTime := k.openTime / 1000 * 1000,
    closeTime := k.closeTime / 1000 * 1000, open_ := k.open_, high := k.high,
    low := k.low, close := k.close, volume := k.volume }

/-- `CollectHistorical`'s paging loop: batch geometry (`batchEnd`, `limit`),
fetch, normalize, advance the cursor to the last close time (second-truncated)
plus one millisecond. The provider is a pure function of the issued
`(start, end, limit)`; storage and pacing are I/O outside the embedding, so the
loop returns the request trace, the normalized candles, and the total count.
`fuel` bounds the iteration (the Go loop needs the provider to advance the
cursor to terminate). -/
def collectLoop (symbol : String) (fetch : ℤ → ℤ → ℤ → List Kline) (d : ℤ) :
    ℕ → ℤ → ℤ → List FetchCall × List (Candle ℚ) × ℕ
  | 0, _, _ => ([], [], 0)
  | fuel + 1, currentStart, endTime =>
    if currentStart < endTime then
      let rawEnd := currentStart + d * 1000
      let batchEnd := if endTime < rawEnd then endTime else rawEnd
      let limit : ℤ :=
        if endTime < rawEnd then
          let l0 := (endTime - currentStart) / d
          let l1 := if 1000 < l0 then 1000 else l0
          if l1 < 1 then 1 else l1
        else 1000
      let klines := fetch currentStart batchEnd limit
      if klines.isEmpty then ([⟨currentStart, batchEnd, limit⟩], [], 0)
      else
        let candles := klines.map (klineToCandle symbol)
        let lastK := klines.getLast?.getD ⟨0, 0, 0, 0, 0, 0, 0⟩
        let next := lastK.closeTime / 1000 * 1000 + 1
        let rest := collectLoop symbol fetch d fuel next endTime
        (⟨currentStart, batchEnd, limit⟩ :: rest.1, candles ++ rest.2.1,
          klines.length + rest.2.2)
    else ([], [], 0)

/-- `Collector.CollectHistorical`: the paging loop driven by `parseInterval`. -/
def CollectHistorical (fuel : ℕ) (symbol : String) (fetch : ℤ → ℤ → ℤ → List Kline)
    (interval : String) (startTime endTime : ℤ) : List FetchCall × List (Candle ℚ) × ℕ :=
  collectLoop symbol fetch (parseInterval interval) fuel startTime endTime

/-- A provider with no data, for the collector witness. -/
def emptyFetch : ℤ → ℤ → ℤ → List Kline := fun _ _ _ => []

/-! ### Strategy family (`internal/quant/strategy`) -/

/-- The `lastCross` hysteresis tag (`""` / `"golden"` / `"death"`). -/
inductive Cross where
  | empty
  | golden
  | death
deriving DecidableEq

/-- `MACrossStrategy`'s internal state. -/
structure MACrossState (α : Type) where
  prices : List α
  timestamps : List ℤ
  fastMA : List α
  slowMA : List α
  lastCross : Cross
deriving DecidableEq

/-- `MACrossStrategy.Initialize`. -/
def MACrossState.init {α : Type} : MACrossState α :=
  { prices := [], timestamps := [], fastMA := [], slowMA := [], lastCross := .empty }

/-- `MACrossStrategy.OnCandle`: Buy on a golden cross, Sell on a death cross,
suppressing repeats of the same side through `lastCross`. Fixed quantity 0.01,
market order. -/
def maCrossStep {α : Type} [LinearOrderedField α] (fastPeriod slowPeriod : ℕ)
    (s : MACrossState α) (c : Candle α) : MACrossState α × Option (Signal α) :=
  let prices := s.prices ++ [c.close]
  let timestamps := s.timestamps ++ [c.openTime]
  if prices.length < slowPeriod then
    ({ s with prices := prices, timestamps := timestamps }, none)
  else
    let fastMA := s.fastMA ++ [SMA prices fastPeriod]
    let slowMA := s.slowMA ++ [SMA prices slowPeriod]
    let s1 : MACrossState α :=
      { prices := prices, timestamps := timestamps, fastMA := fastMA, slowMA := slowMA,
        lastCross := s.lastCross }
    if fastMA.length < 2 then (s1, none)
    else
      let prevFast := fastMA.getD (fastMA.length - 2) 0
      let currFast := fastMA.getD (fastMA.length - 1) 0
      let prevSlow := slowMA.getD (slowMA.length - 2) 0
      let currSlow := slowMA.getD (slowMA.length - 1) 0
      if prevFast ≤ prevSlow ∧ currSlow < currFast ∧ s.lastCross ≠ .golden then
        ({ s1 with lastCross := .golden },
          some { action := .buy, quantity := 1 / 100, price := 0, reason := "golden cross" })
      else if prevSlow ≤ prevFast ∧ currFast < currSlow ∧ s.lastCross ≠ .death then
        ({ s1 with lastCross := .death },
          some { action := .sell, quantity := 1 / 100, price := 0, reason := "death cross" })
      else (s1, none)

/-- `RSIStrategy`'s internal state. -/
structure RSIState (α : Type) where
  prices : List α
  inPosition : Bool
deriving DecidableEq

/-- `RSIStrategy.Initialize`. -/
def RSIState.init {α : Type} : RSIState α := { prices := [], inPosition := false }

/-- `RSIStrategy.OnCandle`: Buy when oversold and flat, Sell when overbought
and in position. -/
def rsiStep {α : Type} [LinearOrderedField α] (period : ℕ)
    (oversold overbought positionSize : α)
    (s : RSIState α) (c : Candle α) : RSIState α × Option (Signal α) :=
  let prices := s.prices ++ [c.close]
  if prices.length < period + 1 then ({ s with prices := prices }, none)
  else
    let rsi := RSI prices period
    if rsi < oversold ∧ s.inPosition = false then
      ({ prices := prices, inPosition := true },
        some { action := .buy, quantity := positionSize, price := 0, reason := "rsi oversold" })
    else if overbought < rsi ∧ s.inPosition = true then
      ({ prices := prices, inPosition := false },
        some { action := .sell, quantity := positionSize, price := 0, reason := "rsi overbought" })
    else ({ s with prices := prices }, none)

/-- `BBRSIStrategy`'s internal state. -/
structure BBRSIState where
  prices : List ℝ
  inPosition : Bool

/-- `BBRSIStrategy.Initialize`. -/
def BBRSIState.init : BBRSIState := { prices := [], inPosition := false }

/-- `BBRSIStrategy.OnCandle` (over `ℝ`, since the bands need `math.Sqrt`):
Buy near the lower band when oversold and flat, Sell near the upper band when
overbought and in position. -/
noncomputable def bbRsiStep (bbPeriod : ℕ) (bbMultiplier : ℝ) (rsiPeriod : ℕ)
    (rsiOversold rsiOverbought positionSize : ℝ)
    (s : BBRSIState) (c : Candle ℝ) : BBRSIState × Option (Signal ℝ) :=
  let prices := s.prices ++ [c.close]
  let minPeriod := if bbPeriod < rsiPeriod then rsiPeriod else bbPeriod
  if prices.length < minPeriod + 1 then ({ s with prices := prices }, none)
  else
    let bb := CalculateBollingerBands prices bbPeriod bbMultiplier
    let rsi := RSI prices rsiPeriod
    let currentPrice := c.close
    if currentPrice ≤ bb.lower * 1.01 ∧ rsi < rsiOversold ∧ s.inPosition = false then
      ({ prices := prices, inPosition := true },
        some { action := .buy, quantity := positionSize, price := 0, reason := "bb lower" })
    else if bb.upper * 0.99 ≤ currentPrice ∧ rsiOverbought < rsi ∧ s.inPosition = true then
      ({ prices := prices, inPosition := false },
        some { action := .sell, quantity := positionSize, price := 0, reason := "bb upper" })
    else ({ s with prices := prices }, none)

/-- `GoldenRSIBBStrategy` parameters. -/
structure GoldenParams (α : Type) where
  fastPeriod : ℕ
  slowPeriod : ℕ
  rsiPeriod : ℕ
  bbPeriod : ℕ
  rsiLowerBound : α
  rsiUpperBound : α
  bbMultiplier : α
  volumeThreshold : α
  takeProfitPct : α
  stopLossPct : α
  positionSize : α

/-- `GoldenRSIBBStrategy`'s internal state. -/
structure GoldenState (α : Type) where
  prices : List α
  volumes : List α
  timestamps : List ℤ
  fastMA : List α
  slowMA : List α
  rsiValues : List α
  inPosition : Bool
  entryPrice : α
  lastCross : Cross

/-- `GoldenRSIBBStrategy.Initialize`. -/
def GoldenState.init {α : Type} [LinearOrderedField α] : GoldenState α :=
  { prices := [], volumes := [], timestamps := [], fastMA := [], slowMA := [],
    rsiValues := [], inPosition := false, entryPrice := 0, lastCross := .empty }

/-- `GoldenRSIBBStrategy.calculateAverageVolume`: trailing-`period` mean,
shrunk to the available history; 0 with no data. -/
def calculateAverageVolume {α : Type} [LinearOrderedField α]
    (volumes : List α) (period : ℕ) : α :=
  let p := if volumes.length < period then volumes.length else period
  if p = 0 then 0
  else ((volumes.drop (volumes.length - p)).sum) / (p : α)

/-- `GoldenRSIBBStrategy.OnCandle`: exits (take profit / stop loss / death
cross) only while in position; the four-condition entry only while flat. Only
the `Middle` band is consulted (`bollingerMiddle`). -/
def goldenStep {α : Type} [LinearOrderedField α] (p : GoldenParams α)
    (s : GoldenState α) (c : Candle α) : GoldenState α × Option (Signal α) :=
  let prices := s.prices ++ [c.close]
  let volumes := s.volumes ++ [c.volume]
  let timestamps := s.timestamps ++ [c.openTime]
  if prices.length < p.slowPeriod then
    ({ s with prices := prices, volumes := volumes, timestamps := timestamps }, none)
  else
    let fastMA := s.fastMA ++ [SMA prices p.fastPeriod]
    let slowMA := s.slowMA ++ [SMA prices p.slowPeriod]
    let bbMiddle := bollingerMiddle prices p.bbPeriod
    if prices.length < p.rsiPeriod + 1 then
      ({ prices := prices, volumes := volumes, timestamps := timestamps, fastMA := fastMA,
          slowMA := slowMA, rsiValues := s.rsiValues, inPosition := s.inPosition,
          entryPrice := s.entryPrice, lastCross := s.lastCross }, none)
    else
      let rsi := RSI prices p.rsiPeriod
      let rsiValues := s.rsiValues ++ [rsi]
      let currentPrice := c.close
      let avgVolume := calculateAverageVolume volumes 20
      if s.inPosition then
        let profitPct := (currentPrice - s.entryPrice) / s.entryPrice
        if p.takeProfitPct ≤ profitPct then
          ({ prices := prices, volumes := volumes, timestamps := timestamps, fastMA := fastMA,
              slowMA := slowMA, rsiValues := rsiValues, inPosition := false,
              entryPrice := s.entryPrice, lastCross := s.lastCross },
            some { action := .sell, quantity := p.positionSize, price := 0, reason := "take profit" })
        else if profitPct ≤ -p.stopLossPct then
          ({ prices := prices, volumes := volumes, timestamps := timestamps, fastMA := fastMA,
              slowMA := slowMA, rsiValues := rsiValues, inPosition := false,
              entryPrice := s.entryPrice, lastCross := s.lastCross },
            some { action := .sell, quantity := p.positionSize, price := 0, reason := "stop loss" })
        else if 2 ≤ fastMA.length ∧ 2 ≤ slowMA.length then
          let prevFast := fastMA.getD (fastMA.length - 2) 0
          let currFast := fastMA.getD (fastMA.length - 1) 0
          let prevSlow := slowMA.getD (slowMA.length - 2) 0
          let currSlow := slowMA.getD (slowMA.length - 1) 0
          if prevSlow ≤ prevFast ∧ currFast < currSlow then
            ({ prices := prices, volumes := volumes, timestamps := timestamps, fastMA := fastMA,
                slowMA := slowMA, rsiValues := rsiValues, inPosition := false,
                entryPrice := s.entryPrice, lastCross := .death },
              some { action := .sell, quantity := p.positionSize, price := 0, reason := "death cross exit" })
          else
            ({ prices := prices, volumes := volumes, timestamps := timestamps, fastMA := fastMA,
                slowMA := slowMA, rsiValues := rsiValues, inPosition := s.inPosition,
                entryPrice := s.entryPrice, lastCross := s.lastCross }, none)
        else
          ({ prices := prices, volumes := volumes, timestamps := timestamps, fastMA := fastMA,
              slowMA := slowMA, rsiValues := rsiValues, inPosition := s.inPosition,
              entryPrice := s.entryPrice, lastCross := s.lastCross }, none)
      else
        if fastMA.length < 2 ∨ slowMA.length < 2 then
          ({ prices := prices, volumes := volumes, timestamps := timestamps, fastMA := fastMA,
              slowMA := slowMA, rsiValues := rsiValues, inPosition := s.inPosition,
              entryPrice := s.entryPrice, lastCross := s.lastCross }, none)
        else
          let prevFast := fastMA.getD (fastMA.length - 2) 0
          let currFast := fastMA.getD (fastMA.length - 1) 0
          let prevSlow := slowMA.getD (slowMA.length - 2) 0
          let currSlow := slowMA.getD (slowMA.length - 1) 0
          let isGoldenCross := (prevFast ≤ prevSlow ∧ currSlow < currFast) ∨
            (currSlow < currFast ∧ s.lastCross = .golden)
          let lastCross2 := if isGoldenCross ∧ s.lastCross ≠ .golden then Cross.golden
            else s.lastCross
          if currFast ≤ currSlow then
            ({ prices := prices, volumes := volumes, timestamps := timestamps, fastMA := fastMA,
                slowMA := slowMA, rsiValues := rsiValues, inPosition := s.inPosition,
                entryPrice := s.entryPrice, lastCross := lastCross2 }, none)
          else if rsi < p.rsiLowerBound ∨ p.rsiUpperBound < rsi then
            ({ prices := prices, volumes := volumes, timestamps := timestamps, fastMA := fastMA,
                slowMA := slowMA, rsiValues := rsiValues, inPosition := s.inPosition,
                entryPrice := s.entryPrice, lastCross := lastCross2 }, none)
          else if currentPrice ≤ bbMiddle then
            ({ prices := prices, volumes := volumes, timestamps := timestamps, fastMA := fastMA,
                slowMA := slowMA, rsiValues := rsiValues, inPosition := s.inPosition,
                entryPrice := s.entryPrice, lastCross := lastCross2 }, none)
          else if c.volume < avgVolume * p.volumeThreshold then
            ({ prices := prices, volumes := volumes, timestamps := timestamps, fastMA := fastMA,
                slowMA := slowMA, rsiValues := rsiValues, inPosition := s.inPosition,
                entryPrice := s.entryPrice, lastCross := lastCross2 }, none)
          else
            ({ prices := prices, volumes := volumes, timestamps := timestamps, fastMA := fastMA,
                slowMA := slowMA, rsiValues := rsiValues, inPosition := true,
                entryPrice := currentPrice, lastCross := lastCross2 },
              some { action := .buy, quantity := p.positionSize, price := 0, reason := "golden entry" })

/-- `DCAStrategy`'s internal state. -/
structure DCAState where
  lastPurchaseTime : ℤ
  isInitialized : Bool
deriving DecidableEq

/-- `DCAStrategy.Initialize`. -/
def DCAState.init : DCAState := { lastPurchaseTime := 0, isInitialized := false }

/-- `DCAStrategy.OnCandle`: buy `amount/price` on the first candle and then
whenever at least `period` has elapsed since the last purchase. -/
def dcaStep {α : Type} [LinearOrderedField α] (period : ℤ) (amountUSDT : α)
    (s : DCAState) (c : Candle α) : DCAState × Option (Signal α) :=
  if s.isInitialized = false then
    ({ lastPurchaseTime := c.openTime, isInitialized := true },
      some { action := .buy, quantity := amountUSDT / c.close, price := 0, reason := "dca initial" })
  else if period ≤ c.openTime - s.lastPurchaseTime then
    ({ lastPurchaseTime := c.openTime, isInitialized := true },
      some { action := .buy, quantity := amountUSDT / c.close, price := 0, reason := "dca regular" })
  else (s, none)

/-- The sequence of actions a strategy emits over a candle stream. -/
def emitActions {σ γ A : Type} (step : σ → γ → σ × Option (Signal A)) :
    σ → List γ → List OrderSide
  | _, [] => []
  | s, c :: cs =>
    match step s c with
    | (s2, some sig) => sig.action :: emitActions step s2 cs
    | (s2, none) => emitActions step s2 cs

/-- The spec's Flat/Long state machine, checking that no Sell is emitted while
Flat (`long = true` when the strategy considers itself in position). -/
def noSellWhileFlatB : Bool → List OrderSide → Bool
  | _, [] => true
  | _, .buy :: rest => noSellWhileFlatB true rest
  | long, .sell :: rest => long && noSellWhileFlatB false rest

/-- A step function respects the Flat/Long machine through the view `inPos`:
Buys only while flat (entering Long), Sells only while Long (returning to
Flat), silence preserves the state. -/
def TogglesInPos {σ γ A : Type} (step : σ → γ → σ × Option (Signal A))
    (inPos : σ → Bool) : Prop :=
  ∀ s c,
    match step s c with
    | (s2, none) => inPos s2 = inPos s
    | (s2, some sig) =>
      match sig.action with
      | .buy => inPos s = false ∧ inPos s2 = true
      | .sell => inPos s = true ∧ inPos s2 = false

/-- Candle stream on which MA-Cross(2, 3) first signals a Sell. -/
def crossCandles : List (Candle ℚ) :=
  [flatCandle 0 100, flatCandle 60000 100, flatCandle 120000 100, flatCandle 180000 90]

/-! ## Theorems -/

theorem alistSet_mem {β : Type} {w : List (String × β)} {a : String} {b : β}
    {p : String × β} (hp : p ∈ alistSet w a b) : p = (a, b) ∨ p ∈ w := by
  induction w with
  | nil => simpa [alistSet] using hp
  | cons q qs ih =>
    by_cases h : q.1 = a
    · rcases (by simpa [alistSet, h] using hp : p = (a, b) ∨ p ∈ qs) with h1 | h1
      · exact Or.inl h1
      · exact Or.inr (List.mem_cons_of_mem _ h1)
    · rcases (by simpa [alistSet, h] using hp : p = q ∨ p ∈ alistSet qs a b) with h1 | h1
      · exact Or.inr (h1 ▸ List.mem_cons_self _ _)
      · rcases ih h1 with h2 | h2
        · exact Or.inl h2
        · exact Or.inr (List.mem_cons_of_mem _ h2)

theorem alistLookup_mem {β : Type} {w : List (String × β)} {a : String} {b : β}
    (h : alistLookup w a = some b) : (a, b) ∈ w := by
  unfold alistLookup at h
  rcases hfind : w.find? (fun p => p.1 == a) with _ | q
  · rw [hfind] at h; simp at h
  · rw [hfind] at h
    have hq : q.2 = b := by simpa using h
    have hmem := List.mem_of_find?_eq_some hfind
    have hpred := List.find?_some hfind
    have ha : q.1 = a := by simpa using hpred
    have : q = (a, b) := by cases q; simp_all
    exact this ▸ hmem

theorem alistLookup_set_self {β : Type} (w : List (String × β)) (a : String) (b : β) :
    alistLookup (alistSet w a b) a = some b := by
  induction w with
  | nil => simp [alistSet, alistLookup]
  | cons q qs ih =>
    by_cases h : q.1 = a
    · simp [alistSet, h, alistLookup]
    · simp only [alistSet, h, if_false]
      unfold alistLookup at ih ⊢
      simp only [List.find?_cons]
      have hbeq : (q.1 == a) = false := by simpa using h
      rw [hbeq]
      exact ih

theorem forall_alistSet {β : Type} {P : β → Prop} {w : List (String × β)} {a : String} {b : β}
    (hw : ∀ p ∈ w, P p.2) (hb : P b) : ∀ p ∈ alistSet w a b, P p.2 := by
  intro p hp
  rcases alistSet_mem hp with h | h
  · rw [h]; exact hb
  · exact hw p h

/-- C1, counterexample: a negative `Credit` (the fee path of order settlement)
drives `free` below zero, so the spec's wallet invariant is not preserved by
every operation. -/
theorem wallet_negative_credit_counterexample :
    WalletInv wNeg0 ∧ ¬ WalletInv (WalletOp.apply (.credit "USDT" (-10)) wNeg0) := by
  have heval : WalletOp.apply (.credit "USDT" (-10)) wNeg0
      = [("USDT", { asset := "USDT", free := -5, locked := 0, total := -5 })] := by
    norm_num [WalletOp.apply, Wallet.credit, alistLookup, alistSet, wNeg0, List.find?]
  constructor
  · intro p hp
    simp only [wNeg0, List.mem_singleton] at hp
    subst hp
    refine ⟨by norm_num, by norm_num, le_refl 0⟩
  · rw [heval]
    intro hinv
    have h := hinv ("USDT", { asset := "USDT", free := -5, locked := 0, total := -5 })
      (List.mem_singleton_self _)
    have hfree := h.2.1
    norm_num at hfree

/-- C1 (amended): every wallet operation preserves `total = free + locked`
unconditionally, and preserves the full invariant (`free ≥ 0` and `locked ≥ 0`
included) whenever the operation's amounts are nonnegative; a `credit` with a
negative amount may leave `free` negative. -/
theorem wallet_invariant_preserved :
    (∀ (op : WalletOp) (w : Wallet), WalletInv w → op.nonneg → WalletInv (op.apply w)) ∧
    (∀ (op : WalletOp) (w : Wallet), WalletTotals w → WalletTotals (op.apply w)) := by
  constructor
  · intro op w hw hnn
    cases op with
    | lock a q =>
      simp only [WalletOp.nonneg] at hnn
      show WalletInv ((Wallet.lock w a q).toOption.getD w)
      unfold Wallet.lock
      rcases hb : alistLookup w a with _ | b
      · exact hw
      · obtain ⟨ht, hf, hl⟩ := hw (a, b) (alistLookup_mem hb)
        by_cases hfree : b.free < q
        · simp only [if_pos hfree]; exact hw
        · simp only [if_neg hfree, Except.toOption, Option.getD]
          refine forall_alistSet hw ⟨?_, ?_, ?_⟩
          · show b.total = (b.free - q) + (b.locked + q); rw [ht]; ring
          · show (0:ℚ) ≤ b.free - q
            have := not_lt.mp hfree; linarith
          · show (0:ℚ) ≤ b.locked + q; linarith
    | unlock a q =>
      simp only [WalletOp.nonneg] at hnn
      show WalletInv ((Wallet.unlock w a q).toOption.getD w)
      unfold Wallet.unlock
      rcases hb : alistLookup w a with _ | b
      · exact hw
      · obtain ⟨ht, hf, hl⟩ := hw (a, b) (alistLookup_mem hb)
        by_cases hlk : b.locked < q
        · simp only [if_pos hlk]; exact hw
        · simp only [if_neg hlk, Except.toOption, Option.getD]
          refine forall_alistSet hw ⟨?_, ?_, ?_⟩
          · show b.total = (b.free + q) + (b.locked - q); rw [ht]; ring
          · show (0:ℚ) ≤ b.free + q; linarith
          · show (0:ℚ) ≤ b.locked - q
            have := not_lt.mp hlk; linarith
    | deduct a q =>
      simp only [WalletOp.nonneg] at hnn
      show WalletInv ((Wallet.deduct w a q).toOption.getD w)
      unfold Wallet.deduct
      rcases hb : alistLookup w a with _ | b
      · exact hw
      · obtain ⟨ht, hf, hl⟩ := hw (a, b) (alistLookup_mem hb)
        by_cases hlk : b.locked < q
        · simp only [if_pos hlk]; exact hw
        · simp only [if_neg hlk, Except.toOption, Option.getD]
          refine forall_alistSet hw ⟨rfl, hf, ?_⟩
          show (0:ℚ) ≤ b.locked - q
          have := not_lt.mp hlk; linarith
    | credit a q =>
      simp only [WalletOp.nonneg] at hnn
      show WalletInv (Wallet.credit w a q)
      unfold Wallet.credit
      rcases hb : alistLookup w a with _ | b
      · exact forall_alistSet hw ⟨by simp, hnn, le_refl 0⟩
      · obtain ⟨ht, hf, hl⟩ := hw (a, b) (alistLookup_mem hb)
        exact forall_alistSet hw ⟨rfl, by show (0:ℚ) ≤ b.free + q; linarith, hl⟩
    | transfer fa fq ta tq =>
      simp only [WalletOp.nonneg] at hnn
      show WalletInv ((Wallet.transfer w fa fq ta tq).toOption.getD w)
      unfold Wallet.transfer
      rcases hb : alistLookup w fa with _ | fb
      · exact hw
      · obtain ⟨ht, hf, hl⟩ := hw (fa, fb) (alistLookup_mem hb)
        by_cases hlk : fb.locked < fq
        · simp only [if_pos hlk]; exact hw
        · simp only [if_neg hlk, Except.toOption, Option.getD]
          have hw1 : WalletInv (alistSet w fa
              { fb with locked := fb.locked - fq, total := fb.free + (fb.locked - fq) }) := by
            refine forall_alistSet hw ⟨rfl, hf, ?_⟩
            show (0:ℚ) ≤ fb.locked - fq
            have := not_lt.mp hlk; linarith
          rcases htb : alistLookup (alistSet w fa
              { fb with locked := fb.locked - fq, total := fb.free + (fb.locked - fq) }) ta
            with _ | tb
          · exact forall_alistSet hw1 ⟨by simp, hnn.2, le_refl 0⟩
          · obtain ⟨ht2, hf2, hl2⟩ := hw1 (ta, tb) (alistLookup_mem htb)
            refine forall_alistSet hw1 ⟨rfl, by show (0:ℚ) ≤ tb.free + tq; linarith [hnn.2], hl2⟩
  · intro op w hw
    cases op with
    | lock a q =>
      show WalletTotals ((Wallet.lock w a q).toOption.getD w)
      unfold Wallet.lock
      rcases hb : alistLookup w a with _ | b
      · exact hw
      · have ht : b.total = b.free + b.locked := hw (a, b) (alistLookup_mem hb)
        by_cases hfree : b.free < q
        · simp only [if_pos hfree]; exact hw
        · simp only [if_neg hfree, Except.toOption, Option.getD]
          refine forall_alistSet hw ?_
          show b.total = (b.free - q) + (b.locked + q); rw [ht]; ring
    | unlock a q =>
      show WalletTotals ((Wallet.unlock w a q).toOption.getD w)
      unfold Wallet.unlock
      rcases hb : alistLookup w a with _ | b
      · exact hw
      · have ht : b.total = b.free + b.locked := hw (a, b) (alistLookup_mem hb)
        by_cases hlk : b.locked < q
        · simp only [if_pos hlk]; exact hw
        · simp only [if_neg hlk, Except.toOption, Option.getD]
          refine forall_alistSet hw ?_
          show b.total = (b.free + q) + (b.locked - q); rw [ht]; ring
    | deduct a q =>
      show WalletTotals ((Wallet.deduct w a q).toOption.getD w)
      unfold Wallet.deduct
      rcases hb : alistLookup w a with _ | b
      · exact hw
      · by_cases hlk : b.locked < q
        · simp only [if_pos hlk]; exact hw
        · simp only [if_neg hlk, Except.toOption, Option.getD]
          exact forall_alistSet hw rfl
    | credit a q =>
      show WalletTotals (Wallet.credit w a q)
      unfold Wallet.credit
      rcases hb : alistLookup w a with _ | b
      · exact forall_alistSet hw (by simp [BalTotal])
      · exact forall_alistSet hw rfl
    | transfer fa fq ta tq =>
      show WalletTotals ((Wallet.transfer w fa fq ta tq).toOption.getD w)
      unfold Wallet.transfer
      rcases hb : alistLookup w fa with _ | fb
      · exact hw
      · by_cases hlk : fb.locked < fq
        · simp only [if_pos hlk]; exact hw
        · simp only [if_neg hlk, Except.toOption, Option.getD]
          have hw1 : WalletTotals (alistSet w fa
              { fb with locked := fb.locked - fq, total := fb.free + (fb.locked - fq) }) :=
            forall_alistSet hw rfl
          rcases htb : alistLookup (alistSet w fa
              { fb with locked := fb.locked - fq, total := fb.free + (fb.locked - fq) }) ta
            with _ | tb
          · exact forall_alistSet hw1 (by simp [BalTotal])
          · exact forall_alistSet hw1 rfl

/-- Witness for `wallet_invariant_preserved` at a concrete wallet and lock. -/
theorem wallet_invariant_preserved_witness :
    WalletInv wInv0 ∧ WalletOp.nonneg (.lock "USDT" 400) ∧
      WalletInv (WalletOp.apply (.lock "USDT" 400) wInv0) := by
  have h1 : WalletInv wInv0 := by
    intro p hp
    simp only [wInv0, List.mem_singleton] at hp
    subst hp
    exact ⟨by norm_num, by norm_num, by norm_num⟩
  have h2 : WalletOp.nonneg (.lock "USDT" 400) := by
    show (0:ℚ) ≤ 400; norm_num
  exact ⟨h1, h2, wallet_invariant_preserved.1 (.lock "USDT" 400) wInv0 h1 h2⟩

/-- C8: closing a whole position of quantity `q ≠ 0` held at `avgEntryPrice`
by `updatePosition(symbol, −q, p)` adds exactly `(p − entry)·q` to
`realizedPnL`, zeroes `quantity` and zeroes `unrealizedPnL`. -/
theorem position_full_close (book : PositionBook) (sym : String) (pos : Position) (p : ℚ)
    (hfind : alistLookup book sym = some pos) (hq : pos.quantity ≠ 0) :
    alistLookup (updatePosition book sym (-pos.quantity) p) sym
      = some (pos.applyUpdate (-pos.quantity) p) ∧
    (pos.applyUpdate (-pos.quantity) p).realizedPnL
      = pos.realizedPnL + (p - pos.avgEntryPrice) * pos.quantity ∧
    (pos.applyUpdate (-pos.quantity) p).quantity = 0 ∧
    (pos.applyUpdate (-pos.quantity) p).unrealizedPnL = 0 := by
  have hsame : ¬ ((0 < pos.quantity ∧ 0 < -pos.quantity) ∨
      (pos.quantity < 0 ∧ -pos.quantity < 0)) := by
    rintro (⟨h1, h2⟩ | ⟨h1, h2⟩) <;> linarith
  have harith : pos.applyUpdate (-pos.quantity) p =
      { pos with
        realizedPnL := pos.realizedPnL + (p - pos.avgEntryPrice) * pos.quantity,
        quantity := 0, unrealizedPnL := 0, currentPrice := p } := by
    simp only [Position.applyUpdate, if_neg hq, if_neg hsame,
      if_pos (show pos.quantity + -pos.quantity = 0 by ring), neg_neg]
  refine ⟨?_, ?_, ?_, ?_⟩
  · unfold updatePosition
    rw [hfind]
    exact alistLookup_set_self book sym _
  · rw [harith]
  · rw [harith]
  · rw [harith]

/-- Witness for `position_full_close` at a concrete book and position. -/
theorem position_full_close_witness :
    alistLookup book0 "BTCUSDT" = some pos0 ∧ pos0.quantity ≠ 0 ∧
      ((pos0.applyUpdate (-pos0.quantity) 110).realizedPnL
          = pos0.realizedPnL + (110 - pos0.avgEntryPrice) * pos0.quantity ∧
        (pos0.applyUpdate (-pos0.quantity) 110).quantity = 0 ∧
        (pos0.applyUpdate (-pos0.quantity) 110).unrealizedPnL = 0) := by
  have hfind : alistLookup book0 "BTCUSDT" = some pos0 := by
    simp [book0, alistLookup, List.find?]
  have hq : pos0.quantity ≠ 0 := by
    show (2:ℚ) ≠ 0; norm_num
  exact ⟨hfind, hq, (position_full_close book0 "BTCUSDT" pos0 110 hfind hq).2⟩

/-! ### Engine lemmas and claims -/

theorem sumFees_append (ts us : List Trade) :
    sumFees (ts ++ us) = sumFees ts + sumFees us := by
  simp [sumFees]

theorem netCost_append (ts us : List Trade) :
    netCost (ts ++ us) = netCost ts + netCost us := by
  simp [netCost]

theorem netQty_append (ts us : List Trade) :
    netQty (ts ++ us) = netQty ts + netQty us := by
  simp [netQty]

theorem sumFees_singleton (t : Trade) : sumFees [t] = t.fee := by
  simp [sumFees]

theorem netCost_singleton (t : Trade) : netCost [t] = signedCost t := by
  simp [netCost]

theorem netQty_singleton (t : Trade) : netQty [t] = signedQty t := by
  simp [netQty]

theorem mtmPnL_eq (ts : List Trade) (price : ℚ) :
    mtmPnL ts price = netQty ts * price - netCost ts := by
  induction ts with
  | nil => simp [mtmPnL, netQty, netCost]
  | cons t ts ih =>
    cases h : t.side <;>
      simp only [mtmPnL, netQty, netCost, List.map_cons, List.sum_cons, h,
        signedQty, signedCost] at ih ⊢ <;>
      linear_combination ih

theorem coherent_executeBuy {commission : ℚ} {timestamp : ℤ} {price quantity : ℚ}
    {reason : String} {es es2 : EngineState} {init : ℚ}
    (h : executeBuy commission timestamp price quantity reason es = some es2)
    (hc : LedgerCoherent init es) : LedgerCoherent init es2 := by
  unfold executeBuy at h
  by_cases hb : es.balance < price * quantity + price * quantity * commission
  · rw [if_pos hb] at h; exact absurd h (by simp)
  · rw [if_neg hb] at h
    obtain ⟨h1, h2⟩ := hc
    injection h with h
    subst h
    constructor
    · show es.balance - (price * quantity + price * quantity * commission)
        + netCost (es.trades ++ [_]) + sumFees (es.trades ++ [_]) = init
      rw [netCost_append, sumFees_append, netCost_singleton, sumFees_singleton]
      simp only [signedCost]
      linear_combination h1
    · show es.position + quantity = netQty (es.trades ++ [_])
      rw [netQty_append, netQty_singleton]
      simp only [signedQty]
      linear_combination h2

theorem coherent_executeSell {commission : ℚ} {timestamp : ℤ} {price quantity : ℚ}
    {reason : String} {es es2 : EngineState} {init : ℚ}
    (h : executeSell commission timestamp price quantity reason es = some es2)
    (hc : LedgerCoherent init es) : LedgerCoherent init es2 := by
  unfold executeSell at h
  by_cases hp : es.position < quantity
  · rw [if_pos hp] at h; exact absurd h (by simp)
  · rw [if_neg hp] at h
    obtain ⟨h1, h2⟩ := hc
    injection h with h
    subst h
    constructor
    · show es.balance + (price * quantity - price * quantity * commission)
        + netCost (es.trades ++ [_]) + sumFees (es.trades ++ [_]) = init
      rw [netCost_append, sumFees_append, netCost_singleton, sumFees_singleton]
      simp only [signedCost]
      linear_combination h1
    · show es.position - quantity = netQty (es.trades ++ [_])
      rw [netQty_append, netQty_singleton]
      simp only [signedQty]
      linear_combination h2

theorem coherent_executeSignal {commission : ℚ} {c : Candle ℚ} {sig : Signal ℚ}
    {es es2 : EngineState} {init : ℚ}
    (h : executeSignal commission c sig es = some es2)
    (hc : LedgerCoherent init es) : LedgerCoherent init es2 := by
  obtain ⟨act, qty, prc, rsn⟩ := sig
  unfold executeSignal at h
  cases act with
  | buy => exact coherent_executeBuy h hc
  | sell => exact coherent_executeSell h hc

theorem equity_executeBuy {commission : ℚ} {timestamp : ℤ} {price quantity : ℚ}
    {reason : String} {es es2 : EngineState}
    (h : executeBuy commission timestamp price quantity reason es = some es2) :
    es2.equity = es.equity := by
  unfold executeBuy at h
  by_cases hb : es.balance < price * quantity + price * quantity * commission
  · rw [if_pos hb] at h; exact absurd h (by simp)
  · rw [if_neg hb] at h; injection h with h; subst h; rfl

theorem equity_executeSell {commission : ℚ} {timestamp : ℤ} {price quantity : ℚ}
    {reason : String} {es es2 : EngineState}
    (h : executeSell commission timestamp price quantity reason es = some es2) :
    es2.equity = es.equity := by
  unfold executeSell at h
  by_cases hp : es.position < quantity
  · rw [if_pos hp] at h; exact absurd h (by simp)
  · rw [if_neg hp] at h; injection h with h; subst h; rfl

theorem equity_executeSignal {commission : ℚ} {c : Candle ℚ} {sig : Signal ℚ}
    {es es2 : EngineState}
    (h : executeSignal commission c sig es = some es2) : es2.equity = es.equity := by
  obtain ⟨act, qty, prc, rsn⟩ := sig
  unfold executeSignal at h
  cases act with
  | buy => exact equity_executeBuy h
  | sell => exact equity_executeSell h

theorem coherent_processCandle {σ : Type} {step : StepFn σ} {commission : ℚ} {s : σ}
    {es : EngineState} {c : Candle ℚ} {s' : σ} {es' : EngineState} {init : ℚ}
    (h : processCandle step commission s es c = .ok (s', es'))
    (hc : LedgerCoherent init es) : LedgerCoherent init es' := by
  unfold processCandle at h
  cases hstep : step s c with
  | error e => rw [hstep] at h; exact absurd h (by simp)
  | ok p =>
    rw [hstep] at h
    obtain ⟨s1, sigO⟩ := p
    cases sigO with
    | none =>
      injection h with h
      injection h with hA hB
      subst hB
      exact ⟨hc.1, hc.2⟩
    | some sig =>
      cases hex : executeSignal commission c sig es with
      | none =>
        simp only [hex, Option.getD_none] at h
        injection h with h
        injection h with hA hB
        subst hB
        exact ⟨hc.1, hc.2⟩
      | some es2 =>
        simp only [hex, Option.getD_some] at h
        injection h with h
        injection h with hA hB
        subst hB
        have h3 := coherent_executeSignal hex hc
        exact ⟨h3.1, h3.2⟩

theorem coherent_runLoop {σ : Type} {step : StepFn σ} {commission : ℚ} {init : ℚ} :
    ∀ (candles : List (Candle ℚ)) (s : σ) (es : EngineState) (s' : σ) (es' : EngineState),
      runLoop step commission s es candles = .ok (s', es') →
      LedgerCoherent init es → LedgerCoherent init es' := by
  intro candles
  induction candles with
  | nil =>
    intro s es s' es' h hc
    unfold runLoop at h
    injection h with h
    injection h with hA hB
    subst hB
    exact hc
  | cons c cs ih =>
    intro s es s' es' h hc
    unfold runLoop at h
    cases hpc : processCandle step commission s es c with
    | error e => rw [hpc] at h; exact absurd h (by simp)
    | ok p =>
      rw [hpc] at h
      exact ih p.1 p.2 s' es' h (coherent_processCandle hpc hc)

theorem processCandle_equity {σ : Type} {step : StepFn σ} {commission : ℚ} {s : σ}
    {es : EngineState} {c : Candle ℚ} {s' : σ} {es' : EngineState}
    (h : processCandle step commission s es c = .ok (s', es')) :
    ∃ pt : EquityPoint, es'.equity = es.equity ++ [pt] ∧
      pt.timestamp = c.openTime ∧ pt.price = c.close ∧
      pt.equity = es'.balance + es'.position * c.close := by
  unfold processCandle at h
  cases hstep : step s c with
  | error e => rw [hstep] at h; exact absurd h (by simp)
  | ok p =>
    rw [hstep] at h
    obtain ⟨s1, sigO⟩ := p
    cases sigO with
    | none =>
      injection h with h
      injection h with hA hB
      subst hB
      exact ⟨_, rfl, rfl, rfl, rfl⟩
    | some sig =>
      cases hex : executeSignal commission c sig es with
      | none =>
        simp only [hex, Option.getD_none] at h
        injection h with h
        injection h with hA hB
        subst hB
        exact ⟨_, rfl, rfl, rfl, rfl⟩
      | some es2 =>
        simp only [hex, Option.getD_some] at h
        injection h with h
        injection h with hA hB
        subst hB
        refine ⟨EquityPoint.mk c.openTime (es2.balance + es2.position * c.close) c.close,
          ?_, rfl, rfl, rfl⟩
        show es2.equity ++ _ = es.equity ++ _
        rw [equity_executeSignal hex]

theorem runLoop_equity_length {σ : Type} {step : StepFn σ} {commission : ℚ} :
    ∀ (candles : List (Candle ℚ)) (s : σ) (es : EngineState) (s' : σ) (es' : EngineState),
      runLoop step commission s es candles = .ok (s', es') →
      es'.equity.length = es.equity.length + candles.length := by
  intro candles
  induction candles with
  | nil =>
    intro s es s' es' h
    unfold runLoop at h
    injection h with h
    injection h with hA hB
    subst hB
    simp
  | cons c cs ih =>
    intro s es s' es' h
    unfold runLoop at h
    cases hpc : processCandle step commission s es c with
    | error e => rw [hpc] at h; exact absurd h (by simp)
    | ok p =>
      rw [hpc] at h
      obtain ⟨pt, hpt, _⟩ := processCandle_equity hpc
      have hlen := ih p.1 p.2 s' es' h
      have hone : p.2.equity.length = es.equity.length + 1 := by rw [hpt]; simp
      rw [List.length_cons]
      omega

/-- C2, counterexample: after a single buy with a nonzero commission, the
claim's identity `balance + position·price − Σfees = initial + Σ(realized PnL)`
fails (the fee is subtracted twice: equity already reflects it). -/
theorem engine_mass_balance_claim_counterexample :
    runLoop buyOnceStep (1/10) false (initEngine 1000) [flatCandle 0 100]
      = .ok (true, esBuy100) ∧
    ¬ engineMassBalanceClaim 1000 esBuy100 100 := by
  constructor
  · norm_num [runLoop, processCandle, buyOnceStep, executeSignal, executeBuy, flatCandle,
      initEngine, esBuy100, tradeBuy100]
  · unfold engineMassBalanceClaim
    norm_num [esBuy100, tradeBuy100, sumFees, realizedFromTrades, signedQty,
      Position.applyUpdate]

/-- C2 (amended): at every point of a run — in particular after each candle,
taking `price` to be that candle's close — the engine satisfies
`balance + position·price + Σfees = initialBalance + Σ(mark-to-market PnL of
the recorded flows at that price)`: fees enter with the opposite sign to the
claim, and the PnL term is the mark-to-market profit of all recorded trades. -/
theorem engine_mass_balance {σ : Type} (step : StepFn σ) (commission initialBalance : ℚ)
    (s0 : σ) (candles : List (Candle ℚ)) (s' : σ) (es' : EngineState)
    (h : runLoop step commission s0 (initEngine initialBalance) candles = .ok (s', es'))
    (price : ℚ) :
    es'.balance + es'.position * price + sumFees es'.trades
      = initialBalance + mtmPnL es'.trades price := by
  have hc0 : LedgerCoherent initialBalance (initEngine initialBalance) := by
    constructor <;> simp [initEngine, netCost, sumFees, netQty]
  obtain ⟨h1, h2⟩ := coherent_runLoop candles s0 _ s' es' h hc0
  rw [mtmPnL_eq]
  linear_combination h1 + price * h2

/-- Witness for `engine_mass_balance` at a concrete one-candle run. -/
theorem engine_mass_balance_witness :
    runLoop buyOnceStep (1/10) false (initEngine 1000) [flatCandle 0 100]
      = .ok (true, esBuy100) ∧
    esBuy100.balance + esBuy100.position * 100 + sumFees esBuy100.trades
      = 1000 + mtmPnL esBuy100.trades 100 := by
  have h : runLoop buyOnceStep (1/10) false (initEngine 1000) [flatCandle 0 100]
      = .ok (true, esBuy100) := by
    norm_num [runLoop, processCandle, buyOnceStep, executeSignal, executeBuy, flatCandle,
      initEngine, esBuy100, tradeBuy100]
  exact ⟨h, engine_mass_balance buyOnceStep (1/10) 1000 false [flatCandle 0 100]
    true esBuy100 h 100⟩

/-- C3: the engine run is a pure function of
`(strategy, strategy state, candles, initial balance, commission)`: runs with
equal inputs yield equal trade ledgers and equal equity curves. There is no
other input — no clock, no randomness, no shared mutable state. -/
theorem engine_deterministic (σ : Type) (step1 step2 : StepFn σ) (s1 s2 : σ)
    (candles1 candles2 : List (Candle ℚ)) (init1 init2 comm1 comm2 : ℚ)
    (hstep : step1 = step2) (hs : s1 = s2) (hc : candles1 = candles2)
    (hi : init1 = init2) (hcm : comm1 = comm2) :
    (runLoop step1 comm1 s1 (initEngine init1) candles1).map
        (fun p => (p.2.trades, p.2.equity))
      = (runLoop step2 comm2 s2 (initEngine init2) candles2).map
        (fun p => (p.2.trades, p.2.equity)) := by
  subst hstep; subst hs; subst hc; subst hi; subst hcm; rfl

/-- Witness for `engine_deterministic` at a concrete run. -/
theorem engine_deterministic_witness :
    (runLoop buyOnceStep (1/10) false (initEngine 1000) [flatCandle 0 100]).map
        (fun p => (p.2.trades, p.2.equity))
      = (runLoop buyOnceStep (1/10) false (initEngine 1000) [flatCandle 0 100]).map
        (fun p => (p.2.trades, p.2.equity)) :=
  engine_deterministic Bool buyOnceStep buyOnceStep false false
    [flatCandle 0 100] [flatCandle 0 100] 1000 1000 (1/10) (1/10) rfl rfl rfl rfl rfl

/-- C5: (i) a signal whose settlement fails leaves balance, position and the
trade ledger untouched and the loop proceeds, recording the equity point of the
unchanged state; (ii) every processed candle appends exactly one equity point,
whose equity is `balance + position·close` of the post-settlement state; (iii)
over a whole run the equity curve gains exactly one point per candle. -/
theorem engine_skip_failed_settlement_and_equity :
    (∀ (σ : Type) (step : StepFn σ) (commission : ℚ) (s : σ) (es : EngineState)
        (c : Candle ℚ) (s' : σ) (sig : Signal ℚ),
      step s c = .ok (s', some sig) → executeSignal commission c sig es = none →
      processCandle step commission s es c = .ok (s',
        { es with equity := es.equity ++
            [{ timestamp := c.openTime, equity := es.balance + es.position * c.close,
               price := c.close }] })) ∧
    (∀ (σ : Type) (step : StepFn σ) (commission : ℚ) (s : σ) (es : EngineState)
        (c : Candle ℚ) (s' : σ) (es' : EngineState),
      processCandle step commission s es c = .ok (s', es') →
      ∃ pt : EquityPoint, es'.equity = es.equity ++ [pt] ∧
        pt.timestamp = c.openTime ∧ pt.price = c.close ∧
        pt.equity = es'.balance + es'.position * c.close) ∧
    (∀ (σ : Type) (step : StepFn σ) (commission : ℚ) (s : σ) (es : EngineState)
        (candles : List (Candle ℚ)) (s' : σ) (es' : EngineState),
      runLoop step commission s es candles = .ok (s', es') →
      es'.equity.length = es.equity.length + candles.length) := by
  refine ⟨?_, ?_, ?_⟩
  · intro σ step commission s es c s' sig hstep hexec
    unfold processCandle
    rw [hstep]
    simp only [hexec, Option.getD_none]
  · intro σ step commission s es c s' es' h
    exact processCandle_equity h
  · intro σ step commission s es candles s' es' h
    exact runLoop_equity_length candles s es s' es' h

/-- Witness for `engine_skip_failed_settlement_and_equity`: an oversell is
skipped, the state survives unchanged, and one equity point is recorded. -/
theorem engine_skip_failed_settlement_witness :
    runLoop overSellStep (1/10) () (initEngine 1000) [flatCandle 0 100]
      = .ok ((), esOverSell) ∧
    esOverSell.equity.length = (initEngine 1000).equity.length + 1 := by
  have h : runLoop overSellStep (1/10) () (initEngine 1000) [flatCandle 0 100]
      = .ok ((), esOverSell) := by
    norm_num [runLoop, processCandle, overSellStep, executeSignal, executeSell, flatCandle,
      initEngine, esOverSell]
  exact ⟨h, engine_skip_failed_settlement_and_equity.2.2 Unit overSellStep (1/10) ()
    (initEngine 1000) [flatCandle 0 100] () esOverSell h⟩

/-- C9: a run over an empty candle list succeeds and returns the early result:
`FinalEquity = initialBalance`, `TotalReturn = 0`, no trades, `SharpeRatio = 0`
and `MaxDrawdown = 0` (all remaining fields at their zero values). -/
theorem run_empty_candles {σ : Type} (step : StepFn σ) (s0 : σ)
    (initialBalance commission : ℚ) :
    run step s0 [] initialBalance commission = .ok
      { initialBalance := initialBalance, finalEquity := initialBalance, totalReturn := 0,
        totalTrades := 0, winningTrades := 0, losingTrades := 0, winRate := 0,
        sharpeRatio := 0, maxDrawdown := 0, maxDrawdownPct := 0,
        startTime := 0, endTime := 0, duration := 0, trades := [], equityCurve := [] } := rfl

/-- C6, counterexample: on `[Buy 100, Buy 110, Sell 90, Sell 90]` the analyzer
counts one losing trade (the second Sell finds no pending buy because the slot
was cleared), while the reference most-recent-unpaired-Buy pairing counts two. -/
theorem trade_stats_counterexample :
    calculateTradeStats doubleBuyLedger = (0, 1, 0) ∧
    refTradeStats doubleBuyLedger = (0, 2, 0) := by
  constructor <;>
    norm_num [calculateTradeStats, tradeStatsLoop, refTradeStats, refTradeStatsLoop,
      doubleBuyLedger, mkTrade]

theorem tradeStats_walk_ref : ∀ (ts : List Trade) (w l : ℕ),
    (AltFromFlat true ts → tradeStatsLoop 0 0 w l ts = refTradeStatsLoop [] w l ts) ∧
    (∀ bp bq : ℚ, 0 < bp → AltFromFlat false ts →
      tradeStatsLoop bp bq w l ts = refTradeStatsLoop [(bp, bq)] w l ts) := by
  intro ts
  induction ts with
  | nil => intro w l; exact ⟨fun _ => rfl, fun _ _ _ _ => rfl⟩
  | cons t ts ih =>
    intro w l
    constructor
    · intro halt
      obtain ⟨hside, hpos, hrest⟩ := halt
      simp only [tradeStatsLoop, refTradeStatsLoop, hside]
      exact (ih w l).2 t.price t.quantity hpos hrest
    · intro bp bq hbp hflat
      obtain ⟨hside, hrest⟩ := hflat
      simp only [tradeStatsLoop, refTradeStatsLoop, hside]
      rw [if_pos hbp]
      by_cases h1 : 0 < (t.price - bp) * bq
      · rw [if_pos h1, if_pos h1]
        exact (ih (w + 1) l).1 hrest
      · rw [if_neg h1, if_neg h1]
        by_cases h2 : (t.price - bp) * bq < 0
        · rw [if_pos h2, if_pos h2]
          exact (ih w (l + 1)).1 hrest
        · rw [if_neg h2, if_neg h2]
          exact (ih w l).1 hrest

/-- C6 (amended): on every ledger in which Buys and Sells strictly alternate
starting from flat with positive buy prices — the shape the engine's ledgers
take — the analyzer's `(winningTrades, losingTrades, winRate)` equal the
reference most-recent-unpaired-Buy pairing; on other ledgers they can differ,
because the analyzer holds at most one pending Buy. -/
theorem trade_stats_matches_reference (trades : List Trade)
    (halt : AltFromFlat true trades) :
    calculateTradeStats trades = refTradeStats trades := by
  by_cases hlen : trades.length < 2
  · rcases trades with _ | ⟨t, _ | ⟨u, ts⟩⟩
    · norm_num [calculateTradeStats, refTradeStats, refTradeStatsLoop]
    · obtain ⟨hside, hpos, _⟩ := halt
      simp only [calculateTradeStats, refTradeStats, refTradeStatsLoop, hside]
      norm_num
    · exact absurd hlen (by simp only [List.length_cons]; omega)
  · have hmain := (tradeStats_walk_ref trades 0 0).1 halt
    unfold calculateTradeStats refTradeStats
    rw [if_neg hlen, hmain]
    rcases hev : refTradeStatsLoop [] 0 0 trades with ⟨w, l⟩
    by_cases hwl : 0 < w + l
    · simp only [if_pos hwl]
    · simp only [if_neg hwl]
      have hw : w = 0 := by omega
      have hl : l = 0 := by omega
      subst hw; subst hl
      norm_num

/-- Witness for `trade_stats_matches_reference` on a concrete alternating
ledger. -/
theorem trade_stats_matches_reference_witness :
    AltFromFlat true altLedger ∧ calculateTradeStats altLedger = refTradeStats altLedger := by
  have halt : AltFromFlat true altLedger := by
    refine ⟨rfl, ?_, rfl, trivial⟩
    show (0:ℚ) < 100
    norm_num
  exact ⟨halt, trade_stats_matches_reference altLedger halt⟩

/-- C7, counterexample: on the constant window `[100, 100, 100]` with period 3
the last price equals the middle band, the bands coincide, and `%B` is 0, not
0.5 (the source's `upper != lower` guard returns the zero value). -/
theorem bollinger_constant_counterexample :
    (CalculateBollingerBands [100, 100, 100] 3 2).middle = 100 ∧
    ([100, 100, 100] : List ℝ).getLast?.getD 0
      = (CalculateBollingerBands [100, 100, 100] 3 2).middle ∧
    (CalculateBollingerBands [100, 100, 100] 3 2).pctB = 0 ∧
    (CalculateBollingerBands [100, 100, 100] 3 2).pctB ≠ 1 / 2 := by
  have heval : CalculateBollingerBands [100, 100, 100] 3 2
      = { upper := 100, middle := 100, lower := 100, width := 0, pctB := 0 } := by
    norm_num [CalculateBollingerBands, SMA, Real.sqrt_zero]
  refine ⟨by rw [heval], by rw [heval]; norm_num, by rw [heval], by rw [heval]; norm_num⟩

/-- C7 (amended): whenever there is enough data and the bands do not coincide,
a last price equal to the middle band gives `%B = 0.5`; when the trailing
window is constant the bands coincide and `%B` is 0 instead. -/
theorem bollinger_pctb_half (prices : List ℝ) (period : ℕ) (k : ℝ)
    (hlen : period ≤ prices.length)
    (hne : (CalculateBollingerBands prices period k).upper
      ≠ (CalculateBollingerBands prices period k).lower)
    (hmid : prices.getLast?.getD 0 = (CalculateBollingerBands prices period k).middle) :
    (CalculateBollingerBands prices period k).pctB = 1 / 2 := by
  have hnot : ¬ prices.length < period := not_lt.mpr hlen
  unfold CalculateBollingerBands at hne hmid ⊢
  rw [if_neg hnot] at hne hmid ⊢
  simp only at hne hmid ⊢
  rw [if_pos hne, hmid]
  rw [div_eq_div_iff (sub_ne_zero.mpr hne) (two_ne_zero)]
  ring

/-- Witness for `bollinger_pctb_half` on `[1, 3, 2]`, period 3, `k = 1`. -/
theorem bollinger_pctb_half_witness :
    3 ≤ ([1, 3, 2] : List ℝ).length ∧
    (CalculateBollingerBands [1, 3, 2] 3 1).upper
      ≠ (CalculateBollingerBands [1, 3, 2] 3 1).lower ∧
    ([1, 3, 2] : List ℝ).getLast?.getD 0 = (CalculateBollingerBands [1, 3, 2] 3 1).middle ∧
    (CalculateBollingerBands [1, 3, 2] 3 1).pctB = 1 / 2 := by
  have hlen : 3 ≤ ([1, 3, 2] : List ℝ).length := by norm_num
  have hs : (0:ℝ) < Real.sqrt (2 / 3) := Real.sqrt_pos.mpr (by norm_num)
  have hup : (CalculateBollingerBands [1, 3, 2] 3 1).upper = 2 + Real.sqrt (2 / 3) := by
    norm_num [CalculateBollingerBands, SMA]
  have hlo : (CalculateBollingerBands [1, 3, 2] 3 1).lower = 2 - Real.sqrt (2 / 3) := by
    norm_num [CalculateBollingerBands, SMA]
  have hne : (CalculateBollingerBands [1, 3, 2] 3 1).upper
      ≠ (CalculateBollingerBands [1, 3, 2] 3 1).lower := by
    rw [hup, hlo]
    intro h
    nlinarith [hs]
  have hmid : ([1, 3, 2] : List ℝ).getLast?.getD 0
      = (CalculateBollingerBands [1, 3, 2] 3 1).middle := by
    norm_num [CalculateBollingerBands, SMA]
  exact ⟨hlen, hne, hmid, bollinger_pctb_half _ _ _ hlen hne hmid⟩

/-- C10: an interval label outside the fourteen supported values is not
rejected: `parseInterval` yields the 1-minute duration, and `CollectHistorical`
pages the requested window exactly as it would for `"1m"`. -/
theorem collector_unknown_interval_defaults (interval : String)
    (h : interval ∉ supportedIntervals) :
    parseInterval interval = parseInterval "1m" ∧
    parseInterval interval = 60000 ∧
    ∀ (fuel : ℕ) (symbol : String) (fetch : ℤ → ℤ → ℤ → List Kline) (startTime endTime : ℤ),
      CollectHistorical fuel symbol fetch interval startTime endTime
        = CollectHistorical fuel symbol fetch "1m" startTime endTime := by
  have hp : parseInterval interval = 60000 := by
    simp only [supportedIntervals, List.mem_cons, List.not_mem_nil, or_false, not_or] at h
    obtain ⟨h1, h2, h3, h4, h5, h6, h7, h8, h9, h10, h11, h12, h13, h14⟩ := h
    unfold parseInterval
    rw [if_neg h1, if_neg h2, if_neg h3, if_neg h4, if_neg h5, if_neg h6, if_neg h7,
      if_neg h8, if_neg h9, if_neg h10, if_neg h11, if_neg h12, if_neg h13, if_neg h14]
  have h1m : parseInterval "1m" = 60000 := by decide
  refine ⟨by rw [hp, h1m], hp, ?_⟩
  intro fuel symbol fetch startTime endTime
  unfold CollectHistorical
  rw [hp, h1m]

/-- Witness for `collector_unknown_interval_defaults` at the label `"2m"`. -/
theorem collector_unknown_interval_witness :
    "2m" ∉ supportedIntervals ∧ parseInterval "2m" = 60000 ∧
    CollectHistorical 3 "BTCUSDT" emptyFetch "2m" 0 100000000
      = CollectHistorical 3 "BTCUSDT" emptyFetch "1m" 0 100000000 := by
  have h : "2m" ∉ supportedIntervals := by decide
  exact ⟨h, (collector_unknown_interval_defaults "2m" h).2.1,
    (collector_unknown_interval_defaults "2m" h).2.2 3 "BTCUSDT" emptyFetch 0 100000000⟩

/-! ### Strategy state-machine lemmas and C4 -/

theorem noSell_of_toggles {σ γ A : Type} (step : σ → γ → σ × Option (Signal A))
    (inPos : σ → Bool) (htog : TogglesInPos step inPos) :
    ∀ (cs : List γ) (s : σ), noSellWhileFlatB (inPos s) (emitActions step s cs) = true := by
  intro cs
  induction cs with
  | nil => intro s; rfl
  | cons c cs ih =>
    intro s
    have h := htog s c
    rcases hsc : step s c with ⟨s2, sigO⟩
    rw [hsc] at h
    cases sigO with
    | none =>
      simp only [emitActions, hsc]
      rw [← h]
      exact ih s2
    | some sig =>
      have h2 : (match sig.action with
        | OrderSide.buy => inPos s = false ∧ inPos s2 = true
        | OrderSide.sell => inPos s = true ∧ inPos s2 = false) := h
      cases hact : sig.action with
      | buy =>
        rw [hact] at h2
        obtain ⟨hb1, hb2⟩ := h2
        simp only [emitActions, hsc, hact]
        show noSellWhileFlatB true (emitActions step s2 cs) = true
        have hrec := ih s2
        rw [hb2] at hrec
        exact hrec
      | sell =>
        rw [hact] at h2
        obtain ⟨hb1, hb2⟩ := h2
        simp only [emitActions, hsc, hact]
        show (inPos s && noSellWhileFlatB false (emitActions step s2 cs)) = true
        have hrec := ih s2
        rw [hb2] at hrec
        rw [hb1, Bool.true_and]
        exact hrec

theorem rsi_toggles {α : Type} [LinearOrderedField α] (period : ℕ)
    (oversold overbought positionSize : α) :
    TogglesInPos (rsiStep period oversold overbought positionSize) RSIState.inPosition := by
  intro s c
  simp only [rsiStep]
  by_cases h1 : (s.prices ++ [c.close]).length < period + 1
  · rw [if_pos h1]
  · rw [if_neg h1]
    by_cases h2 : RSI (s.prices ++ [c.close]) period < oversold ∧ s.inPosition = false
    · rw [if_pos h2]; exact ⟨h2.2, rfl⟩
    · rw [if_neg h2]
      by_cases h3 : overbought < RSI (s.prices ++ [c.close]) period ∧ s.inPosition = true
      · rw [if_pos h3]; exact ⟨h3.2, rfl⟩
      · rw [if_neg h3]

theorem bbrsi_toggles (bbPeriod : ℕ) (bbMultiplier : ℝ) (rsiPeriod : ℕ)
    (rsiOversold rsiOverbought positionSize : ℝ) :
    TogglesInPos (bbRsiStep bbPeriod bbMultiplier rsiPeriod rsiOversold rsiOverbought
      positionSize) BBRSIState.inPosition := by
  intro s c
  simp only [bbRsiStep]
  by_cases h1 : (s.prices ++ [c.close]).length
      < (if bbPeriod < rsiPeriod then rsiPeriod else bbPeriod) + 1
  · rw [if_pos h1]
  · rw [if_neg h1]
    by_cases h2 : c.close
        ≤ (CalculateBollingerBands (s.prices ++ [c.close]) bbPeriod bbMultiplier).lower * 1.01
        ∧ RSI (s.prices ++ [c.close]) rsiPeriod < rsiOversold ∧ s.inPosition = false
    · rw [if_pos h2]; exact ⟨h2.2.2, rfl⟩
    · rw [if_neg h2]
      by_cases h3 : (CalculateBollingerBands (s.prices ++ [c.close]) bbPeriod
          bbMultiplier).upper * 0.99 ≤ c.close
          ∧ rsiOverbought < RSI (s.prices ++ [c.close]) rsiPeriod ∧ s.inPosition = true
      · rw [if_pos h3]; exact ⟨h3.2.2, rfl⟩
      · rw [if_neg h3]

theorem golden_toggles {α : Type} [LinearOrderedField α] (p : GoldenParams α) :
    TogglesInPos (goldenStep p) GoldenState.inPosition := by
  intro s c
  simp only [goldenStep]
  by_cases h1 : (s.prices ++ [c.close]).length < p.slowPeriod
  · rw [if_pos h1]
  · rw [if_neg h1]
    by_cases h2 : (s.prices ++ [c.close]).length < p.rsiPeriod + 1
    · rw [if_pos h2]
    · rw [if_neg h2]
      by_cases h3 : s.inPosition = true
      · rw [if_pos h3]
        by_cases h4 : p.takeProfitPct ≤ (c.close - s.entryPrice) / s.entryPrice
        · rw [if_pos h4]; exact ⟨h3, rfl⟩
        · rw [if_neg h4]
          by_cases h5 : (c.close - s.entryPrice) / s.entryPrice ≤ -p.stopLossPct
          · rw [if_pos h5]; exact ⟨h3, rfl⟩
          · rw [if_neg h5]
            by_cases h6 : 2 ≤ (s.fastMA ++ [SMA (s.prices ++ [c.close]) p.fastPeriod]).length
                ∧ 2 ≤ (s.slowMA ++ [SMA (s.prices ++ [c.close]) p.slowPeriod]).length
            · rw [if_pos h6]
              by_cases h7 : (s.slowMA ++ [SMA (s.prices ++ [c.close]) p.slowPeriod]).getD
                    ((s.slowMA ++ [SMA (s.prices ++ [c.close]) p.slowPeriod]).length - 2) 0
                    ≤ (s.fastMA ++ [SMA (s.prices ++ [c.close]) p.fastPeriod]).getD
                    ((s.fastMA ++ [SMA (s.prices ++ [c.close]) p.fastPeriod]).length - 2) 0
                  ∧ (s.fastMA ++ [SMA (s.prices ++ [c.close]) p.fastPeriod]).getD
                    ((s.fastMA ++ [SMA (s.prices ++ [c.close]) p.fastPeriod]).length - 1) 0
                    < (s.slowMA ++ [SMA (s.prices ++ [c.close]) p.slowPeriod]).getD
                    ((s.slowMA ++ [SMA (s.prices ++ [c.close]) p.slowPeriod]).length - 1) 0
              · rw [if_pos h7]; exact ⟨h3, rfl⟩
              · rw [if_neg h7]
            · rw [if_neg h6]
      · rw [if_neg h3]
        have h3f : s.inPosition = false := by
          revert h3; cases s.inPosition <;> simp
        by_cases h8 : (s.fastMA ++ [SMA (s.prices ++ [c.close]) p.fastPeriod]).length < 2
            ∨ (s.slowMA ++ [SMA (s.prices ++ [c.close]) p.slowPeriod]).length < 2
        · rw [if_pos h8]
        · rw [if_neg h8]
          by_cases h9 : (s.fastMA ++ [SMA (s.prices ++ [c.close]) p.fastPeriod]).getD
                ((s.fastMA ++ [SMA (s.prices ++ [c.close]) p.fastPeriod]).length - 1) 0
                ≤ (s.slowMA ++ [SMA (s.prices ++ [c.close]) p.slowPeriod]).getD
                ((s.slowMA ++ [SMA (s.prices ++ [c.close]) p.slowPeriod]).length - 1) 0
          · rw [if_pos h9]
          · rw [if_neg h9]
            by_cases h10 : RSI (s.prices ++ [c.close]) p.rsiPeriod < p.rsiLowerBound
                ∨ p.rsiUpperBound < RSI (s.prices ++ [c.close]) p.rsiPeriod
            · rw [if_pos h10]
            · rw [if_neg h10]
              by_cases h11 : c.close ≤ bollingerMiddle (s.prices ++ [c.close]) p.bbPeriod
              · rw [if_pos h11]
              · rw [if_neg h11]
                by_cases h12 : c.volume
                    < calculateAverageVolume (s.volumes ++ [c.volume]) 20 * p.volumeThreshold
                · rw [if_pos h12]
                · rw [if_neg h12]; exact ⟨h3f, rfl⟩

theorem dca_actions_all_buy {α : Type} [LinearOrderedField α] (period : ℤ) (amountUSDT : α) :
    ∀ (cs : List (Candle α)) (s : DCAState),
      ∀ a ∈ emitActions (dcaStep period amountUSDT) s cs, a = .buy := by
  intro cs
  induction cs with
  | nil => intro s a ha; simp [emitActions] at ha
  | cons c cs ih =>
    intro s a ha
    simp only [emitActions, dcaStep] at ha
    split_ifs at ha with h1 h2
    · rcases List.mem_cons.mp ha with h | h
      · exact h
      · exact ih _ a h
    · rcases List.mem_cons.mp ha with h | h
      · exact h
      · exact ih _ a h
    · exact ih _ a ha

theorem noSell_of_all_buys :
    ∀ (as : List OrderSide) (b : Bool), (∀ a ∈ as, a = .buy) →
      noSellWhileFlatB b as = true := by
  intro as
  induction as with
  | nil => intro b _; rfl
  | cons a rest ih =>
    intro b h
    have ha : a = .buy := h a (List.mem_cons_self a rest)
    subst ha
    show noSellWhileFlatB true rest = true
    exact ih true (fun x hx => h x (List.mem_cons_of_mem _ hx))

/-- C4, counterexample: MA-Cross(2, 3), freshly initialized and fed the flat
stream `100, 100, 100, 90`, emits a death-cross Sell as its very first signal —
a Sell while Flat, which `lastCross` hysteresis does not prevent. -/
theorem macross_sell_while_flat_counterexample :
    emitActions (maCrossStep (α := ℚ) 2 3) MACrossState.init crossCandles
      = [OrderSide.sell] ∧
    noSellWhileFlatB false [OrderSide.sell] = false := by
  constructor
  · norm_num [emitActions, maCrossStep, MACrossState.init, SMA, crossCandles, flatCandle,
      List.getD, List.get?]
    rw [if_neg (fun h => Cross.noConfusion h)]
  · rfl

/-- C4 (amended): every reference strategy except MA-Cross never emits a Sell
while Flat — RSI, BB-RSI and Golden-RSI-BB gate every Sell behind their
`inPosition` flag, which only a Buy sets, and DCA emits only Buys; MA-Cross
tracks no position state and can emit a Sell while Flat (its first signal can
be a Sell). -/
theorem strategies_no_sell_while_flat :
    (∀ (α : Type) [LinearOrderedField α], ∀ (period : ℕ)
        (oversold overbought positionSize : α) (candles : List (Candle α)),
      noSellWhileFlatB false (emitActions (rsiStep period oversold overbought positionSize)
        RSIState.init candles) = true) ∧
    (∀ (bbPeriod : ℕ) (bbMultiplier : ℝ) (rsiPeriod : ℕ)
        (rsiOversold rsiOverbought positionSize : ℝ) (candles : List (Candle ℝ)),
      noSellWhileFlatB false (emitActions (bbRsiStep bbPeriod bbMultiplier rsiPeriod
        rsiOversold rsiOverbought positionSize) BBRSIState.init candles) = true) ∧
    (∀ (α : Type) [LinearOrderedField α], ∀ (p : GoldenParams α) (candles : List (Candle α)),
      noSellWhileFlatB false (emitActions (goldenStep p) GoldenState.init candles) = true) ∧
    (∀ (α : Type) [LinearOrderedField α], ∀ (period : ℤ) (amountUSDT : α)
        (candles : List (Candle α)) (b : Bool),
      noSellWhileFlatB b (emitActions (dcaStep period amountUSDT) DCAState.init candles)
        = true) := by
  refine ⟨?_, ?_, ?_, ?_⟩
  · intro α inst period oversold overbought positionSize candles
    exact noSell_of_toggles _ RSIState.inPosition
      (rsi_toggles period oversold overbought positionSize) candles RSIState.init
  · intro bbPeriod bbMultiplier rsiPeriod rsiOversold rsiOverbought positionSize candles
    exact noSell_of_toggles _ BBRSIState.inPosition
      (bbrsi_toggles bbPeriod bbMultiplier rsiPeriod rsiOversold rsiOverbought positionSize)
      candles BBRSIState.init
  · intro α inst p candles
    exact noSell_of_toggles _ GoldenState.inPosition (golden_toggles p) candles
      GoldenState.init
  · intro α inst period amountUSDT candles b
    exact noSell_of_all_buys _ b (dca_actions_all_buy period amountUSDT candles DCAState.init)

end CryptoQuant
